import Mathlib

set_option maxHeartbeats 1000000

namespace Scraper

/-! Shallow embedding of the Telegram product scraper (src/scraper.py).
    Text is modelled as List Char.  The Python regular-expression scans of
    the rule-based extractors are written out as explicit scanning functions
    with the same matching semantics (leftmost, non-overlapping, greedy with
    the backtracking the concrete patterns can exercise).  Character classes
    are restricted to the scripts the scraper handles (ASCII and the Arabic
    block), matching how CPython's re module classifies those characters. -/

/-- Python str.isspace-style whitespace, the characters matched by the
    regex class backslash-s for the scraper's inputs. -/
def pyIsSpace (c : Char) : Bool :=
  c == ' ' || c == '\t' || c == '\n' || c == '\r' || c == '\x0b' || c == '\x0c'

/-- Decimal digit as matched by the regex class backslash-d: ASCII digits
    plus the Arabic-Indic digit blocks. -/
def pyIsDigit (c : Char) : Bool :=
  decide (48 ≤ c.toNat ∧ c.toNat ≤ 57) ||
  decide (0x660 ≤ c.toNat ∧ c.toNat ≤ 0x669) ||
  decide (0x6F0 ≤ c.toNat ∧ c.toNat ≤ 0x6F9)

/-- Numeric value of a decimal digit accepted by pyIsDigit. -/
def digitVal (c : Char) : Nat :=
  if 48 ≤ c.toNat ∧ c.toNat ≤ 57 then c.toNat - 48
  else if 0x660 ≤ c.toNat ∧ c.toNat ≤ 0x669 then c.toNat - 0x660
  else if 0x6F0 ≤ c.toNat ∧ c.toNat ≤ 0x6F9 then c.toNat - 0x6F0
  else 0

/-- Word character as matched by the regex class backslash-w, restricted to
    ASCII alphanumerics, underscore, and Arabic letters and digits. -/
def pyIsWordChar (c : Char) : Bool :=
  decide (65 ≤ c.toNat ∧ c.toNat ≤ 90) ||
  decide (97 ≤ c.toNat ∧ c.toNat ≤ 122) ||
  pyIsDigit c || c == '_' ||
  decide (0x620 ≤ c.toNat ∧ c.toNat ≤ 0x64A) ||
  decide (0x66E ≤ c.toNat ∧ c.toNat ≤ 0x66F) ||
  decide (0x671 ≤ c.toNat ∧ c.toNat ≤ 0x6D3) ||
  c == 'ە'

/-- Wordness of an optional character (none stands for a string boundary,
    which is never a word character). -/
def optWordChar : Option Char → Bool
  | none => false
  | some c => pyIsWordChar c

/-- Python str.strip: drop whitespace from both ends. -/
def pyStrip (l : List Char) : List Char :=
  ((l.dropWhile pyIsSpace).reverse.dropWhile pyIsSpace).reverse

/-- Python str.splitlines (restricted to the line breaks \n, \r and \r\n):
    accumulator-based splitter; a trailing line break produces no trailing
    empty line. -/
def splitlinesAux : List Char → List Char → List (List Char)
  | [], acc => if acc.isEmpty then [] else [acc.reverse]
  | c :: rest, acc =>
    if c = '\n' then acc.reverse :: splitlinesAux rest []
    else if c = '\r' then
      match rest with
      | [] => acc.reverse :: splitlinesAux [] []
      | d :: rest2 =>
        if d = '\n' then acc.reverse :: splitlinesAux rest2 []
        else acc.reverse :: splitlinesAux (d :: rest2) []
    else splitlinesAux rest (c :: acc)

/-- Python str.splitlines on a character list. -/
def pySplitlines (l : List Char) : List (List Char) := splitlinesAux l []

/-- Natural number denoted by a list of digits. -/
def natOfDigits (l : List Char) : Nat :=
  l.foldl (fun a c => 10 * a + digitVal c) 0

/-- Rational value of an integer part and a (possibly empty) fraction part,
    the value float() gives the captured number. -/
def parseDec (intPart fracPart : List Char) : ℚ :=
  (natOfDigits intPart : ℚ) + (natOfDigits fracPart : ℚ) / ((10 : ℚ) ^ fracPart.length)

end Scraper

namespace Scraper

/-! The rule-based price extractor, class PriceExtractor of src/scraper.py. -/

/-- Alternatives for the capture group (\d+(?:\.\d+)?) read greedily at the
    head of the input: the variant with the fraction first, then the variant
    without it; each with the remainder after the captured text.  Shorter
    integer parts are never listed because every continuation the extractor
    uses begins with a non-digit, so backtracking inside \d+ cannot succeed. -/
def numAlts (s : List Char) : List (ℚ × List Char) :=
  let ds := s.takeWhile pyIsDigit
  let r1 := s.dropWhile pyIsDigit
  if ds.isEmpty then []
  else
    match r1 with
    | '.' :: r2 =>
      let fs := r2.takeWhile pyIsDigit
      let r3 := r2.dropWhile pyIsDigit
      if fs.isEmpty then [((natOfDigits ds : ℚ), r1)]
      else [(parseDec ds fs, r3), ((natOfDigits ds : ℚ), r1)]
    | _ => [((natOfDigits ds : ℚ), r1)]

/-- Try a continuation against each capture alternative, first alternative
    first (the regex backtracking order). -/
def tryAlts (k : List Char → Option (List Char)) : List (ℚ × List Char) → Option (ℚ × List Char)
  | [] => none
  | (v, r) :: rest =>
    match k r with
    | some r2 => some (v, r2)
    | none => tryAlts k rest

/-- Greedy \s* at the head of the input. -/
def skipSpaces (l : List Char) : List Char := l.dropWhile pyIsSpace

/-- Literal match at the head of the input. -/
def litPrefix (lit : List Char) (l : List Char) : Option (List Char) :=
  if lit.isPrefixOf l then some (l.drop lit.length) else none

/-- Pattern (\d+(?:\.\d+)?)\s*(?:جنيه|ج\.م|LE), matched at the head of the
    input; returns the captured value and the remainder after the match. -/
def matchP1 (s : List Char) : Option (ℚ × List Char) :=
  tryAlts
    (fun r =>
      let r2 := skipSpaces r
      match litPrefix "جنيه".data r2 with
      | some r3 => some r3
      | none =>
        match litPrefix "ج.م".data r2 with
        | some r3 => some r3
        | none => litPrefix "LE".data r2)
    (numAlts s)

/-- Shared matcher for the patterns السعر[:\s]+(\d+(?:\.\d+)?) and
    بسعر[:\s]+(\d+(?:\.\d+)?): a keyword, one or more colon/space characters,
    then the captured number. -/
def matchKwNum (kw : List Char) (s : List Char) : Option (ℚ × List Char) :=
  match litPrefix kw s with
  | none => none
  | some r1 =>
    let sep := r1.takeWhile (fun c => c == ':' || pyIsSpace c)
    let r2 := r1.dropWhile (fun c => c == ':' || pyIsSpace c)
    if sep.isEmpty then none
    else
      match numAlts r2 with
      | (v, r3) :: _ => some (v, r3)
      | [] => none

/-- Pattern السعر[:\s]+(\d+(?:\.\d+)?). -/
def matchP2 (s : List Char) : Option (ℚ × List Char) := matchKwNum "السعر".data s

/-- Pattern بسعر[:\s]+(\d+(?:\.\d+)?). -/
def matchP3 (s : List Char) : Option (ℚ × List Char) := matchKwNum "بسعر".data s

/-- Pattern بـ\s*(\d+(?:\.\d+)?). -/
def matchP4 (s : List Char) : Option (ℚ × List Char) :=
  match litPrefix "بـ".data s with
  | none => none
  | some r1 =>
    match numAlts (skipSpaces r1) with
    | (v, r2) :: _ => some (v, r2)
    | [] => none

/-- Pattern (\d+(?:\.\d+)?)\s*ج(?!\w): a number, optional spaces, the letter
    ج not followed by a word character. -/
def matchP5 (s : List Char) : Option (ℚ × List Char) :=
  tryAlts
    (fun r =>
      match skipSpaces r with
      | 'ج' :: rest => if optWordChar rest.head? then none else some rest
      | _ => none)
    (numAlts s)

/-- Fueled re.findall driver: scan left to right, restart one character
    later on failure, continue after the match on success.  All matchers
    consume at least one character, so fuel equal to the input length is
    enough. -/
def scanAll (m : List Char → Option (ℚ × List Char)) : Nat → List Char → List ℚ
  | 0, _ => []
  | _ + 1, [] => []
  | fuel + 1, s@(_ :: rest) =>
    match m s with
    | some (v, r) => v :: scanAll m fuel r
    | none => scanAll m fuel rest

/-- All captures of one pattern over one text, in order of appearance. -/
def findallP (m : List Char → Option (ℚ × List Char)) (s : List Char) : List ℚ :=
  scanAll m s.length s

namespace PriceExtractor

/-- PriceExtractor.MIN_PRICE. -/
def MIN_PRICE : ℚ := 1

/-- PriceExtractor.MAX_PRICE. -/
def MAX_PRICE : ℚ := 100000

/-- Range filter MIN_PRICE <= price <= MAX_PRICE. -/
def inRange (v : ℚ) : Bool := decide (MIN_PRICE ≤ v ∧ v ≤ MAX_PRICE)

/-- PriceExtractor.PRICE_PATTERNS in source order. -/
def PRICE_PATTERNS : List (List Char → Option (ℚ × List Char)) :=
  [matchP1, matchP2, matchP3, matchP4, matchP5]

/-- Python set insertion for the all_prices set, represented as a
    duplicate-free list in insertion order. -/
def insertQ (v : ℚ) (l : List ℚ) : List ℚ := if v ∈ l then l else l ++ [v]

/-- PriceExtractor._find_all_prices: every in-range capture of every pattern
    over every given text, collected into a set. -/
def findAllPrices (texts : List (List Char)) : List ℚ :=
  texts.foldl
    (fun acc text =>
      PRICE_PATTERNS.foldl
        (fun acc m =>
          (findallP m text).foldl
            (fun acc v => if inRange v then insertQ v acc else acc) acc)
        acc)
    []

/-- Normalization re.sub((\d+),(\d+) -> \1.\2): turn a comma between two
    digit runs into a dot, scanning left to right and continuing after each
    replacement. -/
def normCommas : Nat → List Char → List Char
  | 0, s => s
  | _ + 1, [] => []
  | fuel + 1, s@(c :: rest) =>
    let ds := s.takeWhile pyIsDigit
    let r1 := s.dropWhile pyIsDigit
    match ds, r1 with
    | _ :: _, ',' :: r2 =>
      let es := r2.takeWhile pyIsDigit
      let r3 := r2.dropWhile pyIsDigit
      if es.isEmpty then c :: normCommas fuel rest
      else ds ++ '.' :: (es ++ normCommas fuel r3)
    | _, _ => c :: normCommas fuel rest

/-- Comma-decimal normalization of a whole text. -/
def normalizeText (s : List Char) : List Char := normCommas s.length s

/-- Character allow-list of the emoji-cleaning substitution: the Arabic
    block, ASCII letters and digits, whitespace and . , : + - /. -/
def allowedChar (c : Char) : Bool :=
  decide (0x600 ≤ c.toNat ∧ c.toNat ≤ 0x6FF) ||
  decide (65 ≤ c.toNat ∧ c.toNat ≤ 90) ||
  decide (97 ≤ c.toNat ∧ c.toNat ≤ 122) ||
  decide (48 ≤ c.toNat ∧ c.toNat ≤ 57) ||
  pyIsSpace c || c == '.' || c == ',' || c == ':' || c == '+' || c == '-' || c == '/'

/-- The emoji-cleaning substitution: disallowed characters become spaces. -/
def cleanText (s : List Char) : List Char :=
  s.map (fun c => if allowedChar c then c else ' ')

/-- First digit on the same line (the lazy .*? of the contextual pattern
    cannot cross a newline). -/
def seekDigitSameLine : List Char → Option (List Char)
  | [] => none
  | c :: rest =>
    if pyIsDigit c then some (c :: rest)
    else if c == '\n' then none
    else seekDigitSameLine rest

/-- The re.search of pattern السعر.*?(\d+(?:\.\d+)?): leftmost occurrence of
    السعر that is followed by a digit on the same line; the capture is the
    greedy number at that first digit. -/
def ctxScan : List Char → Option ℚ
  | [] => none
  | s@(_ :: rest) =>
    if "السعر".data.isPrefixOf s then
      match seekDigitSameLine (s.drop "السعر".data.length) with
      | some r =>
        match numAlts r with
        | (v, _) :: _ => some v
        | [] => none
      | none => ctxScan rest
    else ctxScan rest

/-- PriceExtractor._contextual_search: the contextual capture if it is in
    range, otherwise nothing. -/
def contextualSearch (clean : List Char) : Option ℚ :=
  match ctxScan clean with
  | some price => if inRange price then some price else none
  | none => none

/-- Fueled scan for \b(\d+(?:\.\d+)?)\b returning the first in-range value:
    prev is the character before the scan position (none at the start).  On
    an out-of-range match the scan continues after the match, exactly as
    iterating re.findall does. -/
def fvnScan : Nat → Option Char → List Char → Option ℚ
  | 0, _, _ => none
  | _ + 1, _, [] => none
  | fuel + 1, prev, s@(c :: rest) =>
    if pyIsDigit c && !(optWordChar prev) then
      let ds := s.takeWhile pyIsDigit
      let r1 := s.dropWhile pyIsDigit
      match r1 with
      | '.' :: r2 =>
        let fs := r2.takeWhile pyIsDigit
        let r3 := r2.dropWhile pyIsDigit
        if fs.isEmpty then
          if inRange (natOfDigits ds : ℚ) then some (natOfDigits ds : ℚ)
          else fvnScan fuel (some (ds.getLastD '0')) r1
        else
          if !(optWordChar r3.head?) then
            if inRange (parseDec ds fs) then some (parseDec ds fs)
            else fvnScan fuel (some (fs.getLastD '0')) r3
          else
            if inRange (natOfDigits ds : ℚ) then some (natOfDigits ds : ℚ)
            else fvnScan fuel (some (ds.getLastD '0')) r1
      | _ =>
        if !(optWordChar r1.head?) then
          if inRange (natOfDigits ds : ℚ) then some (natOfDigits ds : ℚ)
          else fvnScan fuel (some (ds.getLastD '0')) r1
        else fvnScan fuel (some c) rest
    else fvnScan fuel (some c) rest

/-- PriceExtractor._first_valid_number. -/
def firstValidNumber (clean : List Char) : Option ℚ :=
  fvnScan clean.length none clean

end PriceExtractor

/-- Product pricing information (dataclass ProductPrice). -/
structure ProductPrice where
  current_price : Option ℚ := none
  old_price : Option ℚ := none
deriving DecidableEq

/-- ProductPrice.is_valid. -/
def ProductPrice.is_valid (p : ProductPrice) : Bool :=
  match p.current_price with
  | some v => decide (0 < v)
  | none => false

/-- Python min over a nonempty collection, one seed element and the rest. -/
def qMin : ℚ → List ℚ → ℚ
  | a, [] => a
  | a, b :: t => qMin (min a b) t

/-- Python max over a nonempty collection, one seed element and the rest. -/
def qMax : ℚ → List ℚ → ℚ
  | a, [] => a
  | a, b :: t => qMax (max a b) t

namespace PriceExtractor

/-- PriceExtractor.extract: normalize commas, clean to the allow-list, run
    the currency patterns over both texts; if anything matched, current is
    the minimum and old the maximum (only when more than one distinct value
    matched); otherwise the contextual search, and as a last resort the
    first valid standalone number. -/
def extract (text : List Char) : ProductPrice :=
  let text_normalized := normalizeText text
  let clean_text := cleanText text_normalized
  let all_prices := findAllPrices [text_normalized, clean_text]
  match all_prices with
  | p :: ps =>
    { current_price := some (qMin p ps),
      old_price := if 0 < ps.length then some (qMax p ps) else none }
  | [] =>
    match contextualSearch clean_text with
    | some price => { current_price := some price, old_price := none }
    | none => { current_price := firstValidNumber clean_text, old_price := none }

end PriceExtractor

end Scraper

namespace Scraper

/-! The rule-based text extractor, class TextExtractor of src/scraper.py. -/

/-- Result of TextExtractor.extract. -/
structure TextFields where
  name : String
  short_description : String
  description : String
deriving DecidableEq

/-- The boilerplate phrase اسم المنتج stripped from product names. -/
def productPhrase : List Char := "اسم المنتج".data

/-- The substitution re.sub(\bاسم المنتج\b -> empty): a single left-to-right
    pass removing each occurrence of the phrase that sits between word
    boundaries of the original string; prev is the character before the scan
    position (the phrase ends in ج, which becomes prev after a removal). -/
def subPhraseAux : Nat → Option Char → List Char → List Char
  | 0, _, s => s
  | _ + 1, _, [] => []
  | fuel + 1, prev, c :: rest =>
    if productPhrase.isPrefixOf (c :: rest)
       && !(optWordChar prev)
       && !(optWordChar ((c :: rest).drop productPhrase.length).head?)
    then subPhraseAux fuel (some 'ج') ((c :: rest).drop productPhrase.length)
    else c :: subPhraseAux fuel (some c) rest

namespace TextExtractor

/-- TextExtractor._clean_name: remove the boilerplate phrase and strip. -/
def cleanName (l : List Char) : List Char :=
  pyStrip (subPhraseAux l.length none l)

/-- The non-blank stripped lines of the input text. -/
def pyLines (text : List Char) : List (List Char) :=
  ((pySplitlines text).map pyStrip).filter (fun l => !l.isEmpty)

/-- TextExtractor.extract: split into non-blank lines; 0 lines give all
    fields empty, 1 line the cleaned name, 2 lines name and short
    description, 3 or more lines name, short description and the remaining
    lines joined by newlines as description. -/
def extract (text : List Char) : TextFields :=
  match pyLines text with
  | [] => ⟨"", "", ""⟩
  | [a] => ⟨⟨cleanName a⟩, "", ""⟩
  | [a, b] => ⟨⟨cleanName a⟩, ⟨b⟩, ""⟩
  | a :: b :: cs => ⟨⟨cleanName a⟩, ⟨b⟩, ⟨List.intercalate ['\n'] cs⟩⟩

/-- Reconstruction of a text from extracted fields: the three fields joined
    by newlines (used by the idempotence claim). -/
def rejoin (f : TextFields) : List Char :=
  f.name.data ++ '\n' :: (f.short_description.data ++ '\n' :: f.description.data)

end TextExtractor

end Scraper

namespace Scraper

/-! The AI extractor's rotation state machine, class GeminiExtractor of
    src/scraper.py.  The external service is not modelled; extract is
    analysed for the run in which every service call raises a daily-quota
    error (the scenario of the termination claim), which makes the loop a
    pure function of the rotation state. -/

/-- Mutable rotation state of GeminiExtractor. -/
structure GeminiState where
  api_keys : List String
  current_key_index : Nat
  models : List String
  current_model_index : Nat
  exhausted_models : List Nat
  exhausted_keys : List Nat
  enabled : Bool
deriving DecidableEq

/-- Python set.add on a set represented as a duplicate-free list. -/
def insertNat (x : Nat) (l : List Nat) : List Nat :=
  if x ∈ l then l else l ++ [x]

/-- The skip loops (while index in exhausted: index = (index+1) mod n),
    fueled; fuel n is enough whenever a non-exhausted index exists. -/
def skipLoop (exh : List Nat) (n : Nat) : Nat → Nat → Nat
  | 0, i => i
  | fuel + 1, i => if i ∈ exh then skipLoop exh n fuel ((i + 1) % n) else i

/-- The find-next loops of the rotate methods
    (while next in exhausted and len(exhausted) < n: next = (next+1) mod n). -/
def rotFind (exh : List Nat) (n : Nat) : Nat → Nat → Nat
  | 0, i => i
  | fuel + 1, i =>
    if i ∈ exh ∧ exh.length < n then rotFind exh n fuel ((i + 1) % n) else i

/-- GeminiExtractor.get_current_api_key: nothing when disabled or keyless;
    disable when every key is exhausted; otherwise skip exhausted keys and
    return the current key. -/
def getCurrentApiKey (s : GeminiState) : Option String × GeminiState :=
  if !s.enabled || s.api_keys.isEmpty then (none, s)
  else if s.api_keys.length ≤ s.exhausted_keys.length then
    (none, { s with enabled := false })
  else
    let i := skipLoop s.exhausted_keys s.api_keys.length s.api_keys.length s.current_key_index
    (s.api_keys.get? i, { s with current_key_index := i })

/-- GeminiExtractor.get_current_model: nothing when disabled or without
    models; disable when every model is exhausted; otherwise skip exhausted
    models and return the current model. -/
def getCurrentModel (s : GeminiState) : Option String × GeminiState :=
  if !s.enabled || s.models.isEmpty then (none, s)
  else if s.models.length ≤ s.exhausted_models.length then
    (none, { s with enabled := false })
  else
    let i := skipLoop s.exhausted_models s.models.length s.models.length s.current_model_index
    (s.models.get? i, { s with current_model_index := i })

/-- GeminiExtractor.rotate_api_key: mark the current key exhausted, reset
    model exhaustion, move to the next available key or disable the
    extractor when none is left. -/
def rotateApiKey (s : GeminiState) : GeminiState :=
  if !s.enabled || s.api_keys.isEmpty then s
  else
    let exhK := insertNat s.current_key_index s.exhausted_keys
    let s1 := { s with exhausted_keys := exhK, exhausted_models := [], current_model_index := 0 }
    let next := rotFind exhK s.api_keys.length s.api_keys.length
      ((s.current_key_index + 1) % s.api_keys.length)
    if next ∈ exhK then { s1 with enabled := false }
    else { s1 with current_key_index := next }

/-- GeminiExtractor.rotate_model: mark the current model exhausted for the
    current key, move to the next available model, or rotate the key when
    every model is exhausted. -/
def rotateModel (s : GeminiState) : GeminiState :=
  if !s.enabled || s.models.isEmpty then s
  else
    let exh := insertNat s.current_model_index s.exhausted_models
    let next := rotFind exh s.models.length s.models.length
      ((s.current_model_index + 1) % s.models.length)
    if next ∈ exh then rotateApiKey { s with exhausted_models := exh }
    else { s with exhausted_models := exh, current_model_index := next }

/-- Python truthiness of the optional key/model strings returned by the
    getters (None and the empty string are falsy). -/
def optStrTruthy : Option String → Bool
  | none => false
  | some s => !s.isEmpty

/-- One run of GeminiExtractor.extract's retry loop in the scenario where
    every service call raises a daily-quota error, with fuel
    max_attempts - attempt.  Returns the final state, the number of service
    calls issued, the number of rotation steps taken, and the (always nil)
    extraction result. -/
def extractRunAux : GeminiState → Nat → GeminiState × Nat × Nat × Option Unit
  | s, 0 => (s, 0, 0, none)
  | s, fuel + 1 =>
    let (m, s1) := getCurrentModel s
    let (k, s2) := getCurrentApiKey s1
    if !optStrTruthy m || !optStrTruthy k then (s2, 0, 0, none)
    else
      let s3 := rotateModel s2
      if s3.enabled then
        let (s4, calls, rots, res) := extractRunAux s3 fuel
        (s4, calls + 1, rots + 1, res)
      else (s3, 1, 1, none)

/-- GeminiExtractor.extract under all-daily-quota errors: return nil at once
    when disabled, otherwise run the loop with the attempt budget
    len(models) * len(api_keys). -/
def extractAllQuota (s : GeminiState) : GeminiState × Nat × Nat × Option Unit :=
  if !s.enabled then (s, 0, 0, none)
  else extractRunAux s (s.models.length * s.api_keys.length)

/-- Rotation state of a freshly constructed GeminiExtractor whose model list
    has been loaded: indices zero, no exhaustion, enabled iff keys exist. -/
def initState (keys models : List String) : GeminiState :=
  { api_keys := keys, current_key_index := 0, models := models,
    current_model_index := 0, exhausted_models := [], exhausted_keys := [],
    enabled := !keys.isEmpty }

/-- The canonical state reached after exhausting j keys completely and i
    models of the current key, in an all-daily-quota run. -/
def canonState (keys models : List String) (j i : Nat) : GeminiState :=
  { api_keys := keys, current_key_index := j, models := models,
    current_model_index := i, exhausted_models := List.range i,
    exhausted_keys := List.range j, enabled := true }

/-- The state after the whole budget is exhausted: disabled for good. -/
def deadState (keys models : List String) : GeminiState :=
  { api_keys := keys, current_key_index := keys.length - 1, models := models,
    current_model_index := 0, exhausted_models := [],
    exhausted_keys := List.range keys.length, enabled := false }

end Scraper

namespace Scraper

/-! Messages, the per-channel cache, the media lookback collector and the
    media aggregation of TelegramProductScraper (src/scraper.py). -/

/-- A Telegram message as the scraper reads it: an id, optional text, and
    the three media attributes _has_media inspects. -/
structure TMsg where
  id : Nat
  text : Option String
  hasPhoto : Bool
  hasDocument : Bool
  hasVideo : Bool
deriving DecidableEq

/-- TelegramProductScraper._has_media. -/
def hasMedia (m : TMsg) : Bool := m.hasPhoto || m.hasDocument || m.hasVideo

/-- Truthiness of message.text and message.text.strip(): nonempty text with
    a non-whitespace character. -/
def nonBlankText (t : Option String) : Bool :=
  match t with
  | none => false
  | some s => !(pyStrip s.data).isEmpty

/-- The ids visited by _collect_from_cache: the Python
    range(message_id - 1, max(message_id - max_lookback - 1, 0), -1),
    that is message_id - 1 down to message_id - max_lookback (and above 0). -/
def walkIds (message_id max_lookback : Nat) : List Nat :=
  let stop := message_id - max_lookback - 1
  (List.range (message_id - 1 - stop)).map (fun k => message_id - 1 - k)

/-- The body of _collect_from_cache's walk over a list of ids: an id missing
    from the cache is skipped silently; a cached message with non-blank text
    stops the walk; cached messages with media are collected in walk order. -/
def collectCacheAux (cache : Nat → Option TMsg) : List Nat → List TMsg
  | [] => []
  | i :: rest =>
    match cache i with
    | some m =>
      if nonBlankText m.text then []
      else if hasMedia m then m :: collectCacheAux cache rest
      else collectCacheAux cache rest
    | none => collectCacheAux cache rest

/-- TelegramProductScraper._collect_from_cache. -/
def collectFromCache (cache : Nat → Option TMsg) (message_id max_lookback : Nat) : List TMsg :=
  collectCacheAux cache (walkIds message_id max_lookback)

/-- The body of _collect_from_telegram's walk over the externally fetched
    descending-id stream: every visited message is cached (second
    component), a non-blank-text message stops the walk after being cached,
    messages with media are collected. -/
def collectTelAux : List TMsg → List TMsg × List (Nat × TMsg)
  | [] => ([], [])
  | m :: rest =>
    if nonBlankText m.text then ([], [(m.id, m)])
    else
      let (ms, cs) := collectTelAux rest
      (if hasMedia m then m :: ms else ms, (m.id, m) :: cs)

/-- TelegramProductScraper._collect_from_telegram: iterate over at most
    max_lookback externally fetched messages (ids descending, newest
    first). -/
def collectFromTelegram (external : List TMsg) (max_lookback : Nat) :
    List TMsg × List (Nat × TMsg) :=
  collectTelAux (external.take max_lookback)

/-- TelegramProductScraper.collect_previous_media: when the channel has a
    cache entry the walk is served from the cache alone, otherwise entirely
    from the external fetch; the collected list is reversed so media appears
    in original chronological order.  Also returns the cache entries the
    external branch records as a side effect. -/
def collectPreviousMedia (channelCached : Bool) (cache : Nat → Option TMsg)
    (external : List TMsg) (message_id max_lookback : Nat) :
    List TMsg × List (Nat × TMsg) :=
  if channelCached then
    ((collectFromCache cache message_id max_lookback).reverse, [])
  else
    let (ms, cs) := collectFromTelegram external max_lookback
    (ms.reverse, cs)

/-- Modelled from the spec: the claimed per-id lookback collector (the code
    under test is collect_previous_media; this definition follows the words
    of the claim).  It walks backward from message.id - 1 down to
    message.id - maxLookback, uses the per-channel cache for each id that is
    cached and falls back to an external fetch for ids that are not cached,
    stops at the first message with non-blank text, collects messages that
    have media and no text, and reverses the result into chronological
    order. -/
def claimedCollectAux (cache fetched : Nat → Option TMsg) : List Nat → List TMsg
  | [] => []
  | i :: rest =>
    match (cache i).orElse (fun _ => fetched i) with
    | some m =>
      if nonBlankText m.text then []
      else if hasMedia m then m :: claimedCollectAux cache fetched rest
      else claimedCollectAux cache fetched rest
    | none => claimedCollectAux cache fetched rest

/-- Modelled from the spec: full claimed collector, reversed to
    chronological order. -/
def claimedCollect (cache fetched : Nat → Option TMsg) (message_id max_lookback : Nat) :
    List TMsg :=
  (claimedCollectAux cache fetched (walkIds message_id max_lookback)).reverse

end Scraper

namespace Scraper

/-! Product assembly, media aggregation and the processed-message set
    (TelegramProductScraper.process_message, _collect_all_media and
    _add_media_to_product of src/scraper.py). -/

/-- Message identity string f"{chat_id}_{message_id}". -/
def uidOf (chat_id : Int) (message_id : Nat) : String :=
  toString chat_id ++ "_" ++ toString message_id

/-- Python set.add on the processed-message set, represented as a
    duplicate-free list in insertion order. -/
def insertStr (x : String) (l : List String) : List String :=
  if x ∈ l then l else l ++ [x]

/-- The mutable state _collect_all_media touches: the processed-message
    set, this channel's pending-media buffer, and the images of the product
    being assembled. -/
structure AssemblyState where
  processed : List String
  pending : List TMsg
  images : List String
deriving DecidableEq

/-- TelegramProductScraper._add_media_to_product: the media-materialization
    capability dl (message and image index to an optional local path) may
    fail, in which case no image is appended; the message is marked
    processed either way. -/
def addMediaToProduct (dl : TMsg → Nat → Option String) (chat_id : Int)
    (st : AssemblyState) (m : TMsg) : AssemblyState :=
  let st1 :=
    match dl m st.images.length with
    | some path => { st with images := st.images ++ [path] }
    | none => st
  { st1 with processed := insertStr (uidOf chat_id m.id) st1.processed }

/-- Step 1 of _collect_all_media: attach every buffered pending message
    (no processed-set check), then clear the buffer. -/
def drainPending (dl : TMsg → Nat → Option String) (chat_id : Int)
    (st : AssemblyState) : AssemblyState :=
  let st1 := st.pending.foldl (addMediaToProduct dl chat_id) st
  { st1 with pending := [] }

/-- Step 2 of _collect_all_media: attach each lookback message whose
    identity is not yet in the processed set. -/
def lookbackPhase (dl : TMsg → Nat → Option String) (chat_id : Int)
    (st : AssemblyState) (prev_media : List TMsg) : AssemblyState :=
  prev_media.foldl
    (fun st m =>
      if uidOf chat_id m.id ∈ st.processed then st
      else addMediaToProduct dl chat_id st m)
    st

/-- Step 3 of _collect_all_media: attach the triggering message's own media
    (no processed-set check). -/
def currentPhase (dl : TMsg → Nat → Option String) (chat_id : Int)
    (st : AssemblyState) (message : TMsg) : AssemblyState :=
  if hasMedia message then addMediaToProduct dl chat_id st message else st

/-- TelegramProductScraper._collect_all_media: the three numbered source
    steps in order (pending buffer, lookback media, current message). -/
def collectAllMedia (dl : TMsg → Nat → Option String) (chat_id : Int)
    (st : AssemblyState) (prev_media : List TMsg) (message : TMsg) : AssemblyState :=
  currentPhase dl chat_id
    (lookbackPhase dl chat_id (drainPending dl chat_id st) prev_media)
    message

/-- The slice of process_message around media aggregation for a text-bearing
    message: the message identity is added to the processed set (source line
    "Mark as processed") before _collect_all_media runs. -/
def processTextMessageMedia (dl : TMsg → Nat → Option String) (chat_id : Int)
    (st : AssemblyState) (prev_media : List TMsg) (message : TMsg) : AssemblyState :=
  collectAllMedia dl chat_id
    { st with processed := insertStr (uidOf chat_id message.id) st.processed }
    prev_media message

end Scraper

namespace Scraper

/-! Durable JSON stores and backend delivery (FileManager and BackendClient
    of src/scraper.py). -/

/-- An entry of a product JSON store: the unique_id the upsert compares
    (dict.get gives none when absent) and the rest of the record. -/
structure JEntry where
  unique_id : Option String
  body : Nat
deriving DecidableEq

/-- A product with its identity, as passed to append_product_to_json. -/
structure PRecord where
  unique_id : String
  body : Nat
deriving DecidableEq

/-- Serialization product.to_dict() of the upserted product. -/
def PRecord.toEntry (p : PRecord) : JEntry := ⟨some p.unique_id, p.body⟩

/-- FileManager.append_product_to_json: replace the first entry whose
    unique_id equals the product's, otherwise append the product at the
    end. -/
def appendProductToJson (p : PRecord) : List JEntry → List JEntry
  | [] => [p.toEntry]
  | e :: rest =>
    if e.unique_id = some p.unique_id then p.toEntry :: rest
    else e :: appendProductToJson p rest

/-- The backend's answer to one delivery request. -/
inductive BackendResp
  | status (code : Nat)
  | transportError
deriving DecidableEq

/-- Outcome of BackendClient.send_product: the returned flag, the number of
    HTTP requests issued within the call, and the failed/offline stores
    after the call. -/
structure DeliveryResult where
  sent : Bool
  requests : Nat
  failedStore : List JEntry
  offlineStore : List JEntry
deriving DecidableEq

/-- BackendClient.send_product: without a configured backend the product is
    saved to the offline store and False returned without any request; with
    a backend, status 200 or 201 is success, any other status or a transport
    error saves to the failed store and returns False.  No retry happens
    inside the call: requests is at most one. -/
def sendProduct (enabled : Bool) (resp : BackendResp) (p : PRecord)
    (failedStore offlineStore : List JEntry) : DeliveryResult :=
  if !enabled then
    { sent := false, requests := 0, failedStore := failedStore,
      offlineStore := appendProductToJson p offlineStore }
  else
    match resp with
    | .status code =>
      if code = 200 ∨ code = 201 then
        { sent := true, requests := 1, failedStore := failedStore,
          offlineStore := offlineStore }
      else
        { sent := false, requests := 1,
          failedStore := appendProductToJson p failedStore,
          offlineStore := offlineStore }
    | .transportError =>
      { sent := false, requests := 1,
        failedStore := appendProductToJson p failedStore,
        offlineStore := offlineStore }

/-- Extraction method recorded on a product. -/
inductive ExtractionMethod
  | gemini
  | manual
deriving DecidableEq

/-- The fields extract_product_info reads from a parsed Gemini response. -/
structure AIFields where
  name : String
  short_description : String
  description : String
  current_price : Option ℚ
  old_price : Option ℚ
deriving DecidableEq

/-- TelegramProductScraper.extract_product_info with the outcome of the
    external AI call passed explicitly: a Gemini result is copied into the
    text and price data unchanged; otherwise the rule-based extractors run
    on the text. -/
def extractProductInfo (gemini_result : Option AIFields) (text : List Char) :
    TextFields × ProductPrice × ExtractionMethod :=
  match gemini_result with
  | some g =>
    (⟨g.name, g.short_description, g.description⟩,
     ⟨g.current_price, g.old_price⟩, ExtractionMethod.gemini)
  | none =>
    (TextExtractor.extract text, PriceExtractor.extract text, ExtractionMethod.manual)

end Scraper

namespace Scraper

/-! Helper lemmas about the idempotent upsert. -/

/-- When no entry matches, the upsert appends at the end. -/
theorem appendProductToJson_no_match (p : PRecord) (store : List JEntry)
    (h : ∀ e ∈ store, e.unique_id ≠ some p.unique_id) :
    appendProductToJson p store = store ++ [p.toEntry] := by
  induction store with
  | nil => rfl
  | cons e rest ih =>
    have he : e.unique_id ≠ some p.unique_id := h e (by simp)
    simp only [appendProductToJson, if_neg he]
    rw [ih (fun e' hm => h e' (by simp [hm]))]
    simp

/-- The upsert replaces the first matching entry in place. -/
theorem appendProductToJson_first_match (p : PRecord) (pre : List JEntry)
    (e : JEntry) (post : List JEntry)
    (hpre : ∀ e' ∈ pre, e'.unique_id ≠ some p.unique_id)
    (he : e.unique_id = some p.unique_id) :
    appendProductToJson p (pre ++ e :: post) = pre ++ p.toEntry :: post := by
  induction pre with
  | nil => simp [appendProductToJson, if_pos he]
  | cons a rest ih =>
    have ha : a.unique_id ≠ some p.unique_id := hpre a (by simp)
    simp only [List.cons_append, appendProductToJson, if_neg ha, List.append_eq]
    rw [ih (fun e' hm => hpre e' (by simp [hm]))]

/-- Between them, every store is either match-free or splits at its first
    matching entry. -/
theorem first_match_split (P : JEntry → Prop) [DecidablePred P] (store : List JEntry)
    (h : ∃ e ∈ store, P e) :
    ∃ pre e post, store = pre ++ e :: post ∧ P e ∧ ∀ e' ∈ pre, ¬ P e' := by
  induction store with
  | nil => simp at h
  | cons a rest ih =>
    by_cases ha : P a
    · exact ⟨[], a, rest, by simp, ha, by simp⟩
    · have : ∃ e ∈ rest, P e := by
        obtain ⟨e, hm, hP⟩ := h
        rcases List.mem_cons.mp hm with rfl | hm'
        · exact absurd hP ha
        · exact ⟨e, hm', hP⟩
      obtain ⟨pre, e, post, heq, hP, hpre⟩ := ih this
      exact ⟨a :: pre, e, post, by simp [heq], hP, by
        intro e' hm
        rcases List.mem_cons.mp hm with rfl | hm'
        · exact ha
        · exact hpre e' hm'⟩

/-- The upsert is idempotent. -/
theorem appendProductToJson_idem (p : PRecord) (store : List JEntry) :
    appendProductToJson p (appendProductToJson p store) = appendProductToJson p store := by
  induction store with
  | nil => simp [appendProductToJson, PRecord.toEntry]
  | cons e rest ih =>
    by_cases he : e.unique_id = some p.unique_id
    · simp [appendProductToJson, if_pos he, PRecord.toEntry]
    · simp only [appendProductToJson, if_neg he]
      rw [ih]

/-- Number of entries of a store carrying a given unique_id. -/
def countUid (u : String) (store : List JEntry) : Nat :=
  store.countP (fun e => decide (e.unique_id = some u))

/-- The upsert creates a record when none matches and otherwise keeps the
    match count unchanged. -/
theorem countUid_upsert (p : PRecord) (store : List JEntry) :
    countUid p.unique_id (appendProductToJson p store) =
      if countUid p.unique_id store = 0 then 1 else countUid p.unique_id store := by
  induction store with
  | nil => simp [countUid, appendProductToJson, PRecord.toEntry]
  | cons e rest ih =>
    by_cases he : e.unique_id = some p.unique_id
    · simp [countUid, appendProductToJson, if_pos he, PRecord.toEntry, he,
        List.countP_cons]
    · simp only [countUid, appendProductToJson, if_neg he, List.countP_cons] at ih ⊢
      simp [he, ih]

end Scraper

namespace Scraper

/-- C10: for every product and prior store contents, append_product_to_json
    replaces exactly the first entry whose unique_id matches the product's
    (in place, all other entries and their positions untouched), appends the
    product at the end iff no entry matched, never removes an entry, and the
    store grows by one exactly when no match existed. -/
theorem c10_upsert_frame (p : PRecord) (store : List JEntry) :
    ((∀ e ∈ store, e.unique_id ≠ some p.unique_id) →
        appendProductToJson p store = store ++ [p.toEntry] ∧
        (appendProductToJson p store).length = store.length + 1)
    ∧ (∀ pre e post, store = pre ++ e :: post →
        (∀ e' ∈ pre, e'.unique_id ≠ some p.unique_id) →
        e.unique_id = some p.unique_id →
        appendProductToJson p store = pre ++ p.toEntry :: post ∧
        (appendProductToJson p store).length = store.length)
    ∧ ((∃ e ∈ store, e.unique_id = some p.unique_id) ↔
        (appendProductToJson p store).length = store.length) := by
  refine ⟨fun h => ?_, fun pre e post heq hpre he => ?_, ?_⟩
  · rw [appendProductToJson_no_match p store h]; simp
  · subst heq
    rw [appendProductToJson_first_match p pre e post hpre he]
    simp
  · constructor
    · intro hex
      obtain ⟨pre, e, post, heq, hP, hpre⟩ :=
        first_match_split (fun e => e.unique_id = some p.unique_id) store hex
      subst heq
      rw [appendProductToJson_first_match p pre e post hpre hP]
      simp
    · intro hlen
      by_contra hno
      push_neg at hno
      have := appendProductToJson_no_match p store hno
      rw [this] at hlen
      simp at hlen

/-- Witness for c10_upsert_frame: upserting b replaces the matching entry in
    place and keeps the length. -/
theorem c10_upsert_frame_witness :
    appendProductToJson ⟨"b", 9⟩ [⟨some "a", 0⟩, ⟨some "b", 1⟩] =
      [⟨some "a", 0⟩] ++ (⟨"b", 9⟩ : PRecord).toEntry :: [] :=
  ((c10_upsert_frame ⟨"b", 9⟩ [⟨some "a", 0⟩, ⟨some "b", 1⟩]).2.1
    [⟨some "a", 0⟩] ⟨some "b", 1⟩ [] (by decide) (by decide) (by decide)).1

/-- C7: with no backend configured, deliver performs an idempotent upsert
    into the offline store without issuing any request; two deliveries of
    products with the same unique_id leave exactly one record for that
    unique_id in the offline store (starting from any store that respects
    the at-most-one-record-per-identity discipline the upsert maintains). -/
theorem c7_offline_queue (p : PRecord) (resp1 resp2 : BackendResp)
    (failed offline : List JEntry)
    (h : countUid p.unique_id offline ≤ 1) :
    (sendProduct false resp1 p failed offline).sent = false
    ∧ (sendProduct false resp1 p failed offline).requests = 0
    ∧ (sendProduct false resp1 p failed offline).offlineStore =
        appendProductToJson p offline
    ∧ countUid p.unique_id
        (sendProduct false resp2 p failed
          (sendProduct false resp1 p failed offline).offlineStore).offlineStore = 1 := by
  refine ⟨rfl, rfl, rfl, ?_⟩
  show countUid p.unique_id (appendProductToJson p (appendProductToJson p offline)) = 1
  rw [countUid_upsert, countUid_upsert]
  by_cases h0 : countUid p.unique_id offline = 0
  · simp [h0]
  · simp [h0]
    omega

/-- Witness for c7_offline_queue: two offline deliveries of the same
    unique_id starting from an empty store leave exactly one record. -/
theorem c7_offline_queue_witness :
    countUid "u"
      (sendProduct false BackendResp.transportError ⟨"u", 0⟩ []
        (sendProduct false BackendResp.transportError ⟨"u", 0⟩ [] []).offlineStore).offlineStore = 1 :=
  (c7_offline_queue ⟨"u", 0⟩ BackendResp.transportError BackendResp.transportError [] []
    (by decide)).2.2.2

/-- C6 counterexample: the 2xx status 204 does not yield the Sent outcome;
    the code accepts only 200 and 201, so a 204 response is recorded as
    Failed and upserted into the failed store. -/
theorem c6_counterexample :
    (sendProduct true (BackendResp.status 204) ⟨"u", 0⟩ [] []).sent = false
    ∧ 200 ≤ 204 ∧ 204 < 300
    ∧ (sendProduct true (BackendResp.status 204) ⟨"u", 0⟩ [] []).failedStore =
        [(⟨"u", 0⟩ : PRecord).toEntry] := by decide

/-- C6 amended: with a configured backend, status 200 or 201 yields Sent;
    any other status (2xx included) and any transport error yield Failed
    together with an idempotent upsert of the product into the
    failed-delivery store; exactly one request is issued per call, so the
    delivery is never retried within the call. -/
theorem c6_delivery_outcomes (code : Nat) (p : PRecord) (failed offline : List JEntry) :
    ((code = 200 ∨ code = 201) →
      sendProduct true (BackendResp.status code) p failed offline =
        ⟨true, 1, failed, offline⟩)
    ∧ (¬(code = 200 ∨ code = 201) →
      sendProduct true (BackendResp.status code) p failed offline =
        ⟨false, 1, appendProductToJson p failed, offline⟩)
    ∧ (sendProduct true BackendResp.transportError p failed offline =
        ⟨false, 1, appendProductToJson p failed, offline⟩)
    ∧ (∀ resp, (sendProduct true resp p failed offline).requests = 1)
    ∧ appendProductToJson p (appendProductToJson p failed) =
        appendProductToJson p failed := by
  refine ⟨fun h => by simp [sendProduct, if_pos h], fun h => by simp [sendProduct, if_neg h],
    rfl, fun resp => ?_, appendProductToJson_idem p failed⟩
  cases resp with
  | status c =>
    by_cases h : c = 200 ∨ c = 201 <;> simp [sendProduct, h]
  | transportError => rfl

/-- Witness for c6_delivery_outcomes: status 500 gives the Failed outcome
    with the product upserted into the failed store. -/
theorem c6_delivery_outcomes_witness :
    sendProduct true (BackendResp.status 500) ⟨"u", 0⟩ [] [] =
      ⟨false, 1, appendProductToJson ⟨"u", 0⟩ [], []⟩ :=
  (c6_delivery_outcomes 500 ⟨"u", 0⟩ [] []).2.1 (by decide)

end Scraper

namespace Scraper

/-- Minimum of a nonempty collection is at most its maximum. -/
theorem qMin_le_qMax (l : List ℚ) : ∀ a b : ℚ, a ≤ b → qMin a l ≤ qMax b l := by
  induction l with
  | nil => intro a b h; simpa [qMin, qMax] using h
  | cons c t ih =>
    intro a b h
    simp only [qMin, qMax]
    exact ih _ _ (le_trans (min_le_left a c) (le_trans h (le_max_left b c)))

/-- C3 counterexample: on the AI extraction path the prices returned by the
    service are copied into the ProductPrice unvalidated, so an AI answer
    with current_price above old_price violates the claimed invariant. -/
theorem c3_counterexample :
    (extractProductInfo (some ⟨"n", "s", "d", some 500, some 100⟩) "x".data).2.1 =
      ProductPrice.mk (some 500) (some 100)
    ∧ ¬ ((500 : ℚ) ≤ 100) := by
  refine ⟨rfl, by norm_num⟩

/-- C3 amended: the rule-based price extractor always satisfies the
    invariant (when both prices are present, current_price is at most
    old_price); the AI path of extract_product_info in contrast copies the
    service's fields unchanged, so the pipeline invariant holds only when
    the AI response itself satisfies it.  The second conjunct records that
    the fallback path of extract_product_info returns exactly the rule-based
    price pair. -/
theorem c3_price_invariant (text : List Char) (a b : ℚ) :
    ((PriceExtractor.extract text).current_price = some a →
     (PriceExtractor.extract text).old_price = some b → a ≤ b)
    ∧ (extractProductInfo none text).2.1 = PriceExtractor.extract text := by
  refine ⟨fun h1 h2 => ?_, rfl⟩
  simp only [PriceExtractor.extract] at h1 h2
  rcases hS : PriceExtractor.findAllPrices
      [PriceExtractor.normalizeText text,
       PriceExtractor.cleanText (PriceExtractor.normalizeText text)] with _ | ⟨p, ps⟩
  · rw [hS] at h1 h2
    simp only at h1 h2
    rcases hc : PriceExtractor.contextualSearch
        (PriceExtractor.cleanText (PriceExtractor.normalizeText text)) with _ | v
    · rw [hc] at h2; simp at h2
    · rw [hc] at h2; simp at h2
  · rw [hS] at h1 h2
    simp only [Option.some.injEq] at h1
    rcases ps with _ | ⟨q, qs⟩
    · simp at h2
    · simp only [List.length_cons, Option.some.injEq] at h2
      have hle : qMin p (q :: qs) ≤ qMax p (q :: qs) := qMin_le_qMax (q :: qs) p p le_rfl
      have h2' : qMax p (q :: qs) = b := by
        simpa using h2
      rw [← h1, ← h2']
      exact hle

/-- Witness for c3_price_invariant: a post with prices 299 and 350 has both
    prices present and ordered. -/
theorem c3_price_invariant_witness :
    (PriceExtractor.extract "السعر : 299 جنيه بدلا من 350 جنيه".data).current_price = some 299
    ∧ (PriceExtractor.extract "السعر : 299 جنيه بدلا من 350 جنيه".data).old_price = some 350
    ∧ (299 : ℚ) ≤ 350 :=
  ⟨by decide, by decide,
    (c3_price_invariant "السعر : 299 جنيه بدلا من 350 جنيه".data 299 350).1
      (by decide) (by decide)⟩

end Scraper

namespace Scraper

/-- C2 counterexample: the text 200 150 contains exactly two in-range
    numeric price tokens 150 < 200, but because neither matches a currency
    pattern the extractor falls through to the first-number tier and returns
    current_price 200 with old_price nil, not current 150 and old 200. -/
theorem c2_counterexample :
    PriceExtractor.extract "200 150".data = ⟨some 200, none⟩
    ∧ PriceExtractor.extract "200 150".data ≠ ⟨some 150, some 200⟩ := by
  constructor
  · decide
  · decide

/-- C2 amended: the claimed zero/one/two-token behaviour holds for the
    values captured by the currency-pattern scan; when that scan captures
    nothing, old_price is always nil and current_price comes from the
    order-dependent contextual and first-number fallbacks (nil only when
    those also find nothing). -/
theorem c2_price_cases (text : List Char) :
    (∀ v : ℚ,
      PriceExtractor.findAllPrices
          [PriceExtractor.normalizeText text,
           PriceExtractor.cleanText (PriceExtractor.normalizeText text)] = [v] →
      PriceExtractor.extract text = ⟨some v, none⟩)
    ∧ (∀ A B : ℚ, A < B →
      (PriceExtractor.findAllPrices
          [PriceExtractor.normalizeText text,
           PriceExtractor.cleanText (PriceExtractor.normalizeText text)] = [A, B] ∨
       PriceExtractor.findAllPrices
          [PriceExtractor.normalizeText text,
           PriceExtractor.cleanText (PriceExtractor.normalizeText text)] = [B, A]) →
      PriceExtractor.extract text = ⟨some A, some B⟩)
    ∧ (PriceExtractor.findAllPrices
          [PriceExtractor.normalizeText text,
           PriceExtractor.cleanText (PriceExtractor.normalizeText text)] = [] →
      (PriceExtractor.extract text).old_price = none)
    ∧ (PriceExtractor.findAllPrices
          [PriceExtractor.normalizeText text,
           PriceExtractor.cleanText (PriceExtractor.normalizeText text)] = [] →
      PriceExtractor.contextualSearch
          (PriceExtractor.cleanText (PriceExtractor.normalizeText text)) = none →
      PriceExtractor.firstValidNumber
          (PriceExtractor.cleanText (PriceExtractor.normalizeText text)) = none →
      PriceExtractor.extract text = ⟨none, none⟩) := by
  refine ⟨fun v hS => ?_, fun A B hAB hS => ?_, fun hS => ?_, fun hS hc hf => ?_⟩
  · simp only [PriceExtractor.extract]
    rw [hS]
    simp [qMin]
  · rcases hS with hS | hS <;>
      (simp only [PriceExtractor.extract]; rw [hS]; simp [qMin, qMax]) <;>
      exact le_of_lt hAB
  · simp only [PriceExtractor.extract]
    rw [hS]
    rcases hc : PriceExtractor.contextualSearch
        (PriceExtractor.cleanText (PriceExtractor.normalizeText text)) with _ | v <;>
      simp [hc]
  · simp only [PriceExtractor.extract]
    rw [hS, hc, hf]

/-- Witness for c2_price_cases: two pattern-captured prices 150 and 200
    (collected in the order 200, 150) give current 150 and old 200. -/
theorem c2_price_cases_witness :
    PriceExtractor.extract "بسعر 150 بدل 200 جنيه".data = ⟨some 150, some 200⟩ :=
  (c2_price_cases "بسعر 150 بدل 200 جنيه".data).2.1 150 200 (by norm_num)
    (Or.inr (by decide))

end Scraper

namespace Scraper

/-- C8 counterexample: the scenario text has three non-blank lines, so the
    code returns the third line as the description; the claimed description
    is empty. -/
theorem c8_counterexample :
    TextExtractor.extract "Blender\nStrong and fast\n150 جنيه".data =
      ⟨"Blender", "Strong and fast", "150 جنيه"⟩
    ∧ ("150 جنيه" : String) ≠ "" := by
  constructor
  · decide
  · decide

/-- C8 amended: extract splits into non-blank stripped lines and returns all
    fields empty for 0 lines, the cleaned single line as name for 1 line,
    name and short description for 2 lines, and name, short description and
    the remaining lines joined by newlines for 3 or more lines, with the
    boilerplate phrase stripped from the name; in particular the scenario
    text yields description 150 جنيه (not the empty string the spec
    claims). -/
theorem c8_text_split (text : List Char) (a b : List Char) (cs : List (List Char)) :
    (TextExtractor.pyLines text = [] →
      TextExtractor.extract text = ⟨"", "", ""⟩)
    ∧ (TextExtractor.pyLines text = [a] →
      TextExtractor.extract text = ⟨⟨TextExtractor.cleanName a⟩, "", ""⟩)
    ∧ (TextExtractor.pyLines text = [a, b] →
      TextExtractor.extract text = ⟨⟨TextExtractor.cleanName a⟩, ⟨b⟩, ""⟩)
    ∧ (∀ c, TextExtractor.pyLines text = a :: b :: c :: cs →
      TextExtractor.extract text =
        ⟨⟨TextExtractor.cleanName a⟩, ⟨b⟩, ⟨List.intercalate ['\n'] (c :: cs)⟩⟩)
    ∧ TextExtractor.extract "Blender\nStrong and fast\n150 جنيه".data =
        ⟨"Blender", "Strong and fast", "150 جنيه"⟩ := by
  refine ⟨fun h => ?_, fun h => ?_, fun h => ?_, fun c h => ?_, by decide⟩
  all_goals unfold TextExtractor.extract
  all_goals rw [h]

/-- Witness for c8_text_split: the scenario text exercises the three-line
    case. -/
theorem c8_text_split_witness :
    TextExtractor.extract "Blender\nStrong and fast\n150 جنيه".data =
      ⟨⟨TextExtractor.cleanName "Blender".data⟩, ⟨"Strong and fast".data⟩,
        ⟨List.intercalate ['\n'] ("150 جنيه".data :: [])⟩⟩ :=
  (c8_text_split "Blender\nStrong and fast\n150 جنيه".data "Blender".data
    "Strong and fast".data []).2.2.2.1 "150 جنيه".data (by decide)

end Scraper

namespace Scraper

/-! Support lemmas for the idempotence analysis of the text extractor. -/

/-- A line list free of the line-break characters. -/
def nlFree (l : List Char) : Prop := ∀ c ∈ l, c ≠ '\n' ∧ c ≠ '\r'

/-- dropWhile is idempotent. -/
theorem dropWhile_dropWhile (p : Char → Bool) (l : List Char) :
    List.dropWhile p (List.dropWhile p l) = List.dropWhile p l := by
  induction l with
  | nil => rfl
  | cons c t ih => cases hp : p c <;> simp [List.dropWhile_cons, hp, ih]

/-- The head of a dropWhile result fails the predicate. -/
theorem head?_dropWhile_false (p : Char → Bool) (l : List Char) :
    ∀ c, (List.dropWhile p l).head? = some c → p c = false := by
  induction l with
  | nil => intro c h; simp at h
  | cons a t ih =>
    intro c h
    rw [List.dropWhile_cons] at h
    by_cases hp : p a
    · rw [if_pos hp] at h; exact ih c h
    · rw [if_neg hp] at h
      simp at h
      rw [← h]
      simpa using hp

/-- dropWhile is the identity when the head fails the predicate. -/
theorem dropWhile_eq_self_of_head (p : Char → Bool) (X : List Char)
    (h : ∀ c, X.head? = some c → p c = false) : List.dropWhile p X = X := by
  cases X with
  | nil => rfl
  | cons a t =>
    rw [List.dropWhile_cons, h a rfl]
    simp

/-- dropWhile keeps the last element of its input (or empties it). -/
theorem getLast?_dropWhile (p : Char → Bool) (z : List Char) :
    List.dropWhile p z = [] ∨ (List.dropWhile p z).getLast? = z.getLast? := by
  induction z with
  | nil => left; rfl
  | cons a t ih =>
    rw [List.dropWhile_cons]
    by_cases hp : p a
    · rw [if_pos hp]
      rcases htd : List.dropWhile p t with _ | ⟨x, xs⟩
      · left; rfl
      · right
        rcases ih with h | h
        · rw [htd] at h; exact absurd h (by simp)
        · rw [← htd, h]
          rcases t with _ | ⟨y, ys⟩
          · simp at htd
          · rw [List.getLast?_cons_cons]
    · rw [if_neg hp]
      right; rfl

/-- Python strip is idempotent. -/
theorem pyStrip_idem (l : List Char) : pyStrip (pyStrip l) = pyStrip l := by
  unfold pyStrip
  have h1 : List.dropWhile pyIsSpace
      ((List.dropWhile pyIsSpace (List.dropWhile pyIsSpace l).reverse).reverse) =
      (List.dropWhile pyIsSpace (List.dropWhile pyIsSpace l).reverse).reverse := by
    apply dropWhile_eq_self_of_head
    intro c hc
    rw [List.head?_reverse] at hc
    rcases getLast?_dropWhile pyIsSpace (List.dropWhile pyIsSpace l).reverse with h | h
    · rw [h] at hc; simp at hc
    · rw [h, List.getLast?_reverse] at hc
      exact head?_dropWhile_false pyIsSpace l c hc
  rw [h1, List.reverse_reverse, dropWhile_dropWhile]

/-- Members of a stripped list are members of the original. -/
theorem mem_of_mem_pyStrip {c : Char} {l : List Char} (h : c ∈ pyStrip l) : c ∈ l := by
  unfold pyStrip at h
  rw [List.mem_reverse] at h
  have h2 := (List.dropWhile_sublist (p := pyIsSpace)
    (l := (List.dropWhile pyIsSpace l).reverse)).mem h
  rw [List.mem_reverse] at h2
  exact (List.dropWhile_sublist (p := pyIsSpace) (l := l)).mem h2

/-- Members of the boilerplate-substitution output are members of the
    input. -/
theorem mem_of_mem_subPhraseAux :
    ∀ (fuel : Nat) (prev : Option Char) (l : List Char) (c : Char),
      c ∈ subPhraseAux fuel prev l → c ∈ l
  | 0, _, l, c => fun h => h
  | _ + 1, _, [], c => fun h => by simp [subPhraseAux] at h
  | fuel + 1, prev, x :: rest, c => by
    intro h
    unfold subPhraseAux at h
    split at h
    · exact List.mem_of_mem_drop (mem_of_mem_subPhraseAux fuel _ _ c h)
    · rcases List.mem_cons.mp h with rfl | h'
      · exact List.mem_cons_self _ _
      · exact List.mem_cons_of_mem _ (mem_of_mem_subPhraseAux fuel _ _ c h')

/-- The cleaned name is already stripped. -/
theorem pyStrip_cleanName (a : List Char) :
    pyStrip (TextExtractor.cleanName a) = TextExtractor.cleanName a := by
  unfold TextExtractor.cleanName
  exact pyStrip_idem _

/-- Members of the cleaned name are members of the original name. -/
theorem mem_of_mem_cleanName {c : Char} {a : List Char}
    (h : c ∈ TextExtractor.cleanName a) : c ∈ a :=
  mem_of_mem_subPhraseAux _ _ _ _ (mem_of_mem_pyStrip h)

end Scraper

namespace Scraper

/-- Every line produced by the splitter is free of line breaks. -/
theorem splitlinesAux_mem_nlFree (s : List Char) :
    ∀ acc, nlFree acc → ∀ l ∈ splitlinesAux s acc, nlFree l := by
  induction s with
  | nil =>
    intro acc hacc l hl
    unfold splitlinesAux at hl
    split at hl
    · simp at hl
    · simp only [List.mem_singleton] at hl
      subst hl
      intro c hc
      exact hacc c (List.mem_reverse.mp hc)
  | cons a rest ih =>
    intro acc hacc l hl
    unfold splitlinesAux at hl
    by_cases h1 : a = '\n'
    · rw [if_pos h1] at hl
      rcases List.mem_cons.mp hl with rfl | hl'
      · intro c hc; exact hacc c (List.mem_reverse.mp hc)
      · exact ih [] (by intro c hc; simp at hc) l hl'
    · rw [if_neg h1] at hl
      by_cases h2 : a = '\r'
      · rw [if_pos h2] at hl
        rcases hr : rest with _ | ⟨d, rest2⟩
        · subst hr
          simp only at hl
          rcases List.mem_cons.mp hl with rfl | hl'
          · intro c hc; exact hacc c (List.mem_reverse.mp hc)
          · unfold splitlinesAux at hl'
            simp at hl'
        · subst hr
          simp only at hl
          by_cases hd : d = '\n'
          · rw [if_pos hd] at hl
            rcases List.mem_cons.mp hl with rfl | hl'
            · intro c hc; exact hacc c (List.mem_reverse.mp hc)
            · refine ih [] (by intro c hc; simp at hc) l ?_
              subst hd
              unfold splitlinesAux
              rw [if_pos rfl]
              exact List.mem_cons_of_mem _ hl'
          · rw [if_neg hd] at hl
            rcases List.mem_cons.mp hl with rfl | hl'
            · intro c hc; exact hacc c (List.mem_reverse.mp hc)
            · exact ih [] (by intro c hc; simp at hc) l hl'
      · rw [if_neg h2] at hl
        refine ih (a :: acc) ?_ l hl
        intro c hc
        rcases List.mem_cons.mp hc with rfl | hc'
        · exact ⟨h1, h2⟩
        · exact hacc c hc'

end Scraper

namespace Scraper

/-- Splitting a break-free chunk followed by a newline yields that chunk as
    a line. -/
theorem splitlinesAux_append_newline (l : List Char) (hl : nlFree l) :
    ∀ (rest acc : List Char),
      splitlinesAux (l ++ '\n' :: rest) acc = (acc.reverse ++ l) :: splitlinesAux rest [] := by
  induction l with
  | nil =>
    intro rest acc
    simp only [List.nil_append]
    conv_lhs => unfold splitlinesAux
    rw [if_pos rfl]
    simp
  | cons c t ih =>
    intro rest acc
    have hc := hl c (by simp)
    simp only [List.cons_append]
    conv_lhs => unfold splitlinesAux
    rw [if_neg hc.1, if_neg hc.2]
    rw [ih (fun c' hm => hl c' (by simp [hm])) rest (c :: acc)]
    simp

/-- Splitting a nonempty break-free text yields exactly one line. -/
theorem splitlinesAux_nlFree_noBreak (l : List Char) (hl : nlFree l) :
    ∀ acc, (acc ≠ [] ∨ l ≠ []) → splitlinesAux l acc = [acc.reverse ++ l] := by
  induction l with
  | nil =>
    intro acc hne
    unfold splitlinesAux
    rw [if_neg (by simpa using hne.resolve_right (by simp))]
    simp
  | cons c t ih =>
    intro acc _
    have hc := hl c (by simp)
    unfold splitlinesAux
    rw [if_neg hc.1, if_neg hc.2]
    rw [ih (fun c' hm => hl c' (by simp [hm])) (c :: acc) (Or.inl (by simp))]
    simp

/-- Splitting the newline-join of nonempty break-free lines recovers the
    lines. -/
theorem pySplitlines_intercalate (cs : List (List Char)) :
    (∀ l ∈ cs, l ≠ [] ∧ nlFree l) → cs ≠ [] →
    pySplitlines (List.intercalate ['\n'] cs) = cs := by
  induction cs with
  | nil => intro _ h; exact absurd rfl h
  | cons c cs' ih =>
    intro h _
    rcases cs' with _ | ⟨d, ds⟩
    · have hc := h c (by simp)
      have : List.intercalate ['\n'] [c] = c := by
        simp [List.intercalate, List.intersperse]
      rw [this]
      unfold pySplitlines
      rw [splitlinesAux_nlFree_noBreak c hc.2 [] (Or.inr hc.1)]
      simp
    · have hstep : List.intercalate ['\n'] (c :: d :: ds) =
          c ++ '\n' :: List.intercalate ['\n'] (d :: ds) := by
        simp [List.intercalate, List.intersperse]
      rw [hstep]
      unfold pySplitlines
      rw [splitlinesAux_append_newline c (h c (by simp)).2]
      have := ih (fun l hm => h l (by simp [hm])) (by simp)
      unfold pySplitlines at this
      rw [this]
      simp

/-- Every non-blank line of a text is nonempty, stripped, and break-free. -/
theorem pyLines_facts (t : List Char) :
    ∀ l ∈ TextExtractor.pyLines t, l ≠ [] ∧ pyStrip l = l ∧ nlFree l := by
  intro l hl
  unfold TextExtractor.pyLines at hl
  rw [List.mem_filter] at hl
  obtain ⟨hmem, hne⟩ := hl
  rw [List.mem_map] at hmem
  obtain ⟨x, hx, rfl⟩ := hmem
  refine ⟨by simpa using hne, pyStrip_idem x, ?_⟩
  intro c hc
  exact splitlinesAux_mem_nlFree t [] (by intro c' hc'; simp at hc') x hx c
    (mem_of_mem_pyStrip hc)

/-- Non-blank stripped lines pass unchanged through the line pipeline. -/
theorem pyLines_of_fixed (ls : List (List Char))
    (h : ∀ l ∈ ls, pyStrip l = l ∧ l ≠ []) :
    (ls.map pyStrip).filter (fun l => !l.isEmpty) = ls := by
  induction ls with
  | nil => rfl
  | cons c t ih =>
    have hc := h c (by simp)
    simp only [List.map_cons, List.filter_cons]
    rw [hc.1]
    rw [if_pos (by simpa using hc.2)]
    rw [ih (fun l hm => h l (by simp [hm]))]

end Scraper

namespace Scraper

/-- C9 counterexample: when the boilerplate phrase is the whole first line
    the extracted name is empty, the reconstructed text loses that line, and
    re-extraction shifts the fields. -/
theorem c9_counterexample :
    TextExtractor.extract
        (TextExtractor.rejoin (TextExtractor.extract "اسم المنتج\nStrong and fast".data)) ≠
      TextExtractor.extract "اسم المنتج\nStrong and fast".data := by
  decide

/-- C9 amended: extractText is idempotent on every input whose extracted
    name is nonempty and is left unchanged by a second boilerplate-cleaning
    pass; the counterexample shows the restriction is necessary (a name
    emptied by the boilerplate strip collapses the reconstructed line
    structure). -/
theorem c9_idempotent (text : List Char) (f : TextFields)
    (hf : TextExtractor.extract text = f)
    (hn : f.name ≠ "")
    (hc : TextExtractor.cleanName f.name.data = f.name.data) :
    TextExtractor.extract (TextExtractor.rejoin f) = f := by
  rcases hL : TextExtractor.pyLines text with _ | ⟨a, _ | ⟨b, _ | ⟨c, cs⟩⟩⟩
  · have hft : TextExtractor.extract text = ⟨"", "", ""⟩ := by
      unfold TextExtractor.extract
      rw [hL]
    rw [hft] at hf
    subst hf
    simp at hn
  · have hft : TextExtractor.extract text = ⟨⟨TextExtractor.cleanName a⟩, "", ""⟩ := by
      unfold TextExtractor.extract
      rw [hL]
    rw [hft] at hf
    subst hf
    obtain ⟨hane, hastrip, hanl⟩ := pyLines_facts text a (by rw [hL]; simp)
    have hnne : TextExtractor.cleanName a ≠ [] := by
      intro h
      exact hn (by simp [h])
    have hnnl : nlFree (TextExtractor.cleanName a) :=
      fun c hm => hanl c (mem_of_mem_cleanName hm)
    have hsplit : pySplitlines (TextExtractor.cleanName a ++ '\n' :: ['\n']) =
        [TextExtractor.cleanName a, []] := by
      unfold pySplitlines
      rw [splitlinesAux_append_newline _ hnnl ['\n'] []]
      simp
      rfl
    have hlines : TextExtractor.pyLines (TextExtractor.rejoin
        ⟨⟨TextExtractor.cleanName a⟩, "", ""⟩) = [TextExtractor.cleanName a] := by
      show TextExtractor.pyLines (TextExtractor.cleanName a ++ '\n' :: ['\n']) = _
      unfold TextExtractor.pyLines
      rw [hsplit]
      have hemp : (TextExtractor.cleanName a).isEmpty = false := by
        rcases hcn : TextExtractor.cleanName a with _ | ⟨x, xs⟩
        · exact absurd hcn hnne
        · rfl
      simp [pyStrip_cleanName, show pyStrip [] = [] from rfl, hemp]
    have hred : TextExtractor.extract (TextExtractor.rejoin
        ⟨⟨TextExtractor.cleanName a⟩, "", ""⟩) =
        ⟨⟨TextExtractor.cleanName (TextExtractor.cleanName a)⟩, "", ""⟩ := by
      unfold TextExtractor.extract
      rw [hlines]
    rw [hred, hc]
  · have hft : TextExtractor.extract text = ⟨⟨TextExtractor.cleanName a⟩, ⟨b⟩, ""⟩ := by
      unfold TextExtractor.extract
      rw [hL]
    rw [hft] at hf
    subst hf
    obtain ⟨hane, hastrip, hanl⟩ := pyLines_facts text a (by rw [hL]; simp)
    obtain ⟨hbne, hbstrip, hbnl⟩ := pyLines_facts text b (by rw [hL]; simp)
    have hnne : TextExtractor.cleanName a ≠ [] := by
      intro h
      exact hn (by simp [h])
    have hnnl : nlFree (TextExtractor.cleanName a) :=
      fun c hm => hanl c (mem_of_mem_cleanName hm)
    have hsplit : pySplitlines (TextExtractor.cleanName a ++ '\n' :: (b ++ ['\n'])) =
        [TextExtractor.cleanName a, b] := by
      unfold pySplitlines
      rw [splitlinesAux_append_newline _ hnnl (b ++ ['\n']) []]
      rw [show (b ++ ['\n'] : List Char) = b ++ '\n' :: [] by simp]
      rw [splitlinesAux_append_newline _ hbnl [] []]
      simp
      rfl
    have hlines : TextExtractor.pyLines (TextExtractor.rejoin
        ⟨⟨TextExtractor.cleanName a⟩, ⟨b⟩, ""⟩) = [TextExtractor.cleanName a, b] := by
      show TextExtractor.pyLines (TextExtractor.cleanName a ++ '\n' :: (b ++ ['\n'])) = _
      unfold TextExtractor.pyLines
      rw [hsplit]
      exact pyLines_of_fixed [TextExtractor.cleanName a, b] (by
        intro l hm
        rcases List.mem_cons.mp hm with rfl | hm'
        · exact ⟨pyStrip_cleanName a, hnne⟩
        · rcases List.mem_cons.mp hm' with rfl | hm''
          · exact ⟨hbstrip, hbne⟩
          · simp at hm'')
    have hred : TextExtractor.extract (TextExtractor.rejoin
        ⟨⟨TextExtractor.cleanName a⟩, ⟨b⟩, ""⟩) =
        ⟨⟨TextExtractor.cleanName (TextExtractor.cleanName a)⟩, ⟨b⟩, ""⟩ := by
      unfold TextExtractor.extract
      rw [hlines]
    rw [hred, hc]
  · have hft : TextExtractor.extract text =
        ⟨⟨TextExtractor.cleanName a⟩, ⟨b⟩, ⟨List.intercalate ['\n'] (c :: cs)⟩⟩ := by
      unfold TextExtractor.extract
      rw [hL]
    rw [hft] at hf
    subst hf
    obtain ⟨hane, hastrip, hanl⟩ := pyLines_facts text a (by rw [hL]; simp)
    obtain ⟨hbne, hbstrip, hbnl⟩ := pyLines_facts text b (by rw [hL]; simp)
    have hmemfacts : ∀ l ∈ c :: cs, l ≠ [] ∧ pyStrip l = l ∧ nlFree l := by
      intro l hm
      exact pyLines_facts text l (by rw [hL]; simp [hm])
    have hnne : TextExtractor.cleanName a ≠ [] := by
      intro h
      exact hn (by simp [h])
    have hnnl : nlFree (TextExtractor.cleanName a) :=
      fun c' hm => hanl c' (mem_of_mem_cleanName hm)
    have hdsplit : pySplitlines (List.intercalate ['\n'] (c :: cs)) = c :: cs :=
      pySplitlines_intercalate (c :: cs)
        (fun l hm => ⟨(hmemfacts l hm).1, (hmemfacts l hm).2.2⟩) (by simp)
    have hsplit : pySplitlines (TextExtractor.cleanName a ++ '\n' ::
        (b ++ '\n' :: List.intercalate ['\n'] (c :: cs))) =
        TextExtractor.cleanName a :: b :: c :: cs := by
      unfold pySplitlines
      rw [splitlinesAux_append_newline _ hnnl _ []]
      rw [splitlinesAux_append_newline _ hbnl _ []]
      unfold pySplitlines at hdsplit
      rw [hdsplit]
      simp
    have hlines : TextExtractor.pyLines (TextExtractor.rejoin
        ⟨⟨TextExtractor.cleanName a⟩, ⟨b⟩, ⟨List.intercalate ['\n'] (c :: cs)⟩⟩) =
        TextExtractor.cleanName a :: b :: c :: cs := by
      show TextExtractor.pyLines (TextExtractor.cleanName a ++ '\n' ::
        (b ++ '\n' :: List.intercalate ['\n'] (c :: cs))) = _
      unfold TextExtractor.pyLines
      rw [hsplit]
      refine pyLines_of_fixed _ ?_
      intro l hm
      rcases List.mem_cons.mp hm with rfl | hm'
      · exact ⟨pyStrip_cleanName a, hnne⟩
      · rcases List.mem_cons.mp hm' with rfl | hm''
        · exact ⟨hbstrip, hbne⟩
        · exact ⟨(hmemfacts l hm'').2.1, (hmemfacts l hm'').1⟩
    have hred : TextExtractor.extract (TextExtractor.rejoin
        ⟨⟨TextExtractor.cleanName a⟩, ⟨b⟩, ⟨List.intercalate ['\n'] (c :: cs)⟩⟩) =
        ⟨⟨TextExtractor.cleanName (TextExtractor.cleanName a)⟩, ⟨b⟩,
          ⟨List.intercalate ['\n'] (c :: cs)⟩⟩ := by
      unfold TextExtractor.extract
      rw [hlines]
    rw [hred, hc]

/-- Witness for c9_idempotent: a two-line post with a clean nonempty name
    extracts to the same fields again. -/
theorem c9_idempotent_witness :
    TextExtractor.extract (TextExtractor.rejoin ⟨"Blender", "Strong and fast", ""⟩) =
      ⟨"Blender", "Strong and fast", ""⟩ :=
  c9_idempotent "Blender\nStrong and fast".data ⟨"Blender", "Strong and fast", ""⟩
    (by decide) (by decide) (by decide)

end Scraper

namespace Scraper

/-! Helper lemmas about the processed-message set during media assembly. -/

/-- An inserted identity is a member of the set. -/
theorem insertStr_self (x : String) (l : List String) : x ∈ insertStr x l := by
  unfold insertStr
  split
  · assumption
  · simp

/-- Insertion preserves membership. -/
theorem insertStr_mono {y : String} {l : List String} (h : y ∈ l) (x : String) :
    y ∈ insertStr x l := by
  unfold insertStr
  split
  · exact h
  · simp [h]

/-- Attaching always records the message identity in the processed set. -/
theorem addMedia_processed_eq (dl : TMsg → Nat → Option String) (chat_id : Int)
    (st : AssemblyState) (m : TMsg) :
    (addMediaToProduct dl chat_id st m).processed =
      insertStr (uidOf chat_id m.id) st.processed := by
  unfold addMediaToProduct
  rcases dl m st.images.length <;> rfl

/-- Attaching leaves the pending buffer alone. -/
theorem addMedia_pending_eq (dl : TMsg → Nat → Option String) (chat_id : Int)
    (st : AssemblyState) (m : TMsg) :
    (addMediaToProduct dl chat_id st m).pending = st.pending := by
  unfold addMediaToProduct
  rcases dl m st.images.length <;> rfl

/-- Folding attachment over a list preserves processed membership. -/
theorem foldAdd_processed_mono (dl : TMsg → Nat → Option String) (chat_id : Int) :
    ∀ (ms : List TMsg) (st : AssemblyState) (u : String), u ∈ st.processed →
      u ∈ (List.foldl (addMediaToProduct dl chat_id) st ms).processed := by
  intro ms
  induction ms with
  | nil => intro st u h; exact h
  | cons m t ih =>
    intro st u h
    refine ih _ u ?_
    rw [addMedia_processed_eq]
    exact insertStr_mono h _

/-- Folding attachment over a list marks every element processed. -/
theorem foldAdd_processed_all (dl : TMsg → Nat → Option String) (chat_id : Int) :
    ∀ (ms : List TMsg) (st : AssemblyState) (m : TMsg), m ∈ ms →
      uidOf chat_id m.id ∈ (List.foldl (addMediaToProduct dl chat_id) st ms).processed := by
  intro ms
  induction ms with
  | nil => intro st m h; simp at h
  | cons m0 t ih =>
    intro st m h
    rcases List.mem_cons.mp h with rfl | h'
    · refine foldAdd_processed_mono dl chat_id t _ _ ?_
      rw [addMedia_processed_eq]
      exact insertStr_self _ _
    · exact ih _ m h'

/-- Unfolding equation for the lookback fold. -/
theorem lookbackPhase_cons (dl : TMsg → Nat → Option String) (chat_id : Int)
    (st : AssemblyState) (m : TMsg) (t : List TMsg) :
    lookbackPhase dl chat_id st (m :: t) =
      lookbackPhase dl chat_id
        (if uidOf chat_id m.id ∈ st.processed then st else addMediaToProduct dl chat_id st m)
        t := by
  unfold lookbackPhase
  rw [List.foldl_cons]

/-- The lookback phase preserves processed membership. -/
theorem lookback_processed_mono (dl : TMsg → Nat → Option String) (chat_id : Int) :
    ∀ (ms : List TMsg) (st : AssemblyState) (u : String), u ∈ st.processed →
      u ∈ (lookbackPhase dl chat_id st ms).processed := by
  intro ms
  induction ms with
  | nil => intro st u h; exact h
  | cons m t ih =>
    intro st u h
    rw [lookbackPhase_cons]
    split
    · exact ih _ u h
    · refine ih _ u ?_
      rw [addMedia_processed_eq]
      exact insertStr_mono h _

/-- After the lookback phase every lookback message is in the processed
    set (it was either skipped because already present, or attached and
    marked). -/
theorem lookback_processed_all (dl : TMsg → Nat → Option String) (chat_id : Int) :
    ∀ (ms : List TMsg) (st : AssemblyState) (m : TMsg), m ∈ ms →
      uidOf chat_id m.id ∈ (lookbackPhase dl chat_id st ms).processed := by
  intro ms
  induction ms with
  | nil => intro st m h; simp at h
  | cons m0 t ih =>
    intro st m h
    rw [lookbackPhase_cons]
    rcases List.mem_cons.mp h with rfl | h'
    · by_cases hp : uidOf chat_id m.id ∈ st.processed
      · rw [if_pos hp]
        exact lookback_processed_mono dl chat_id t _ _ hp
      · rw [if_neg hp]
        refine lookback_processed_mono dl chat_id t _ _ ?_
        rw [addMedia_processed_eq]
        exact insertStr_self _ _
    · exact ih _ m h'

/-- The lookback phase is the identity when every lookback identity is
    already processed: the ProcessedSet really is consulted there. -/
theorem lookback_skip (dl : TMsg → Nat → Option String) (chat_id : Int) :
    ∀ (ms : List TMsg) (st : AssemblyState),
      (∀ m ∈ ms, uidOf chat_id m.id ∈ st.processed) →
      lookbackPhase dl chat_id st ms = st := by
  intro ms
  induction ms with
  | nil => intro st _; rfl
  | cons m t ih =>
    intro st h
    rw [lookbackPhase_cons, if_pos (h m (by simp))]
    exact ih st (fun m' hm => h m' (by simp [hm]))

end Scraper

namespace Scraper

/-- C5 counterexample: the processed set is not consulted for the pending
    buffer or the current message.  A pending message whose identity is
    already in the set is still attached (image 4_0), and the current
    message is always attached after process_message has already added its
    identity to the set (image 6_1). -/
theorem c5_counterexample :
    uidOf 1 4 ∈ ([uidOf 1 4] : List String)
    ∧ uidOf 1 6 ∈ insertStr (uidOf 1 6) [uidOf 1 4]
    ∧ (processTextMessageMedia (fun m i => some (toString m.id ++ "_" ++ toString i)) 1
        ⟨[uidOf 1 4], [⟨4, none, true, false, false⟩], []⟩ []
        ⟨6, some "text", true, false, false⟩).images = ["4_0", "6_1"] := by
  refine ⟨by decide, by decide, by decide⟩

/-- C5 amended: _collect_all_media drains the three sources in the order
    pending buffer, lookback media, current message; the ProcessedSet is
    consulted only before attaching lookback media (that phase is a no-op
    when all its identities are already processed), while pending and
    current-message media are attached without consultation; every message
    offered by any source ends up in the ProcessedSet and the set only
    grows; the pending buffer is cleared. -/
theorem c5_media_aggregation (dl : TMsg → Nat → Option String) (chat_id : Int)
    (st : AssemblyState) (prev_media : List TMsg) (message : TMsg) :
    collectAllMedia dl chat_id st prev_media message =
      currentPhase dl chat_id
        (lookbackPhase dl chat_id (drainPending dl chat_id st) prev_media) message
    ∧ (∀ m ∈ st.pending,
        uidOf chat_id m.id ∈ (collectAllMedia dl chat_id st prev_media message).processed)
    ∧ (∀ m ∈ prev_media,
        uidOf chat_id m.id ∈ (collectAllMedia dl chat_id st prev_media message).processed)
    ∧ (hasMedia message = true →
        uidOf chat_id message.id ∈ (collectAllMedia dl chat_id st prev_media message).processed)
    ∧ (∀ u ∈ st.processed, u ∈ (collectAllMedia dl chat_id st prev_media message).processed)
    ∧ (collectAllMedia dl chat_id st prev_media message).pending = []
    ∧ ((∀ m ∈ prev_media, uidOf chat_id m.id ∈ (drainPending dl chat_id st).processed) →
        lookbackPhase dl chat_id (drainPending dl chat_id st) prev_media =
          drainPending dl chat_id st) := by
  have hcur_mono : ∀ (s : AssemblyState) (u : String), u ∈ s.processed →
      u ∈ (currentPhase dl chat_id s message).processed := by
    intro s u h
    unfold currentPhase
    split
    · rw [addMedia_processed_eq]; exact insertStr_mono h _
    · exact h
  have hdrain_mono : ∀ (u : String), u ∈ st.processed →
      u ∈ (drainPending dl chat_id st).processed := by
    intro u h
    unfold drainPending
    exact foldAdd_processed_mono dl chat_id st.pending st u h
  have hdrain_all : ∀ m ∈ st.pending,
      uidOf chat_id m.id ∈ (drainPending dl chat_id st).processed := by
    intro m h
    unfold drainPending
    exact foldAdd_processed_all dl chat_id st.pending st m h
  have hcur_pending : ∀ (s : AssemblyState),
      (currentPhase dl chat_id s message).pending = s.pending := by
    intro s
    unfold currentPhase
    split
    · rw [addMedia_pending_eq]
    · rfl
  have hlook_pending : ∀ (ms : List TMsg) (s : AssemblyState),
      (lookbackPhase dl chat_id s ms).pending = s.pending := by
    intro ms
    induction ms with
    | nil => intro s; rfl
    | cons m t ih =>
      intro s
      rw [lookbackPhase_cons]
      split
      · exact ih _
      · rw [ih _, addMedia_pending_eq]
  refine ⟨rfl, ?_, ?_, ?_, ?_, ?_, lookback_skip dl chat_id prev_media _⟩
  · intro m h
    exact hcur_mono _ _ (lookback_processed_mono dl chat_id prev_media _ _ (hdrain_all m h))
  · intro m h
    exact hcur_mono _ _ (lookback_processed_all dl chat_id prev_media _ m h)
  · intro h
    show uidOf chat_id message.id ∈ (currentPhase dl chat_id _ message).processed
    unfold currentPhase
    rw [if_pos h, addMedia_processed_eq]
    exact insertStr_self _ _
  · intro u h
    exact hcur_mono _ _ (lookback_processed_mono dl chat_id prev_media _ _ (hdrain_mono u h))
  · show (currentPhase dl chat_id _ message).pending = []
    rw [hcur_pending, hlook_pending]
    rfl

/-- Witness for c5_media_aggregation: a buffered media message's identity is
    in the processed set after assembly. -/
theorem c5_media_aggregation_witness :
    uidOf 1 4 ∈ (collectAllMedia (fun m i => some (toString m.id ++ "_" ++ toString i)) 1
      ⟨[], [⟨4, none, true, false, false⟩], []⟩ []
      ⟨6, some "t", false, false, false⟩).processed :=
  (c5_media_aggregation (fun m i => some (toString m.id ++ "_" ++ toString i)) 1
    ⟨[], [⟨4, none, true, false, false⟩], []⟩ []
    ⟨6, some "t", false, false, false⟩).2.1
    ⟨4, none, true, false, false⟩ (by decide)

end Scraper

namespace Scraper

/-- Membership in the lookback walk: exactly the ids below message_id and
    above message_id - max_lookback - 1. -/
theorem walkIds_mem (message_id max_lookback : Nat) (i : Nat) :
    i ∈ walkIds message_id max_lookback ↔
      (message_id - max_lookback - 1 < i ∧ i < message_id) := by
  simp only [walkIds, List.mem_map, List.mem_range]
  constructor
  · rintro ⟨k, hk, rfl⟩
    omega
  · rintro ⟨h1, h2⟩
    exact ⟨message_id - 1 - i, by omega, by omega⟩

/-- Every message collected from the cache walk has media, no text, and
    comes from a cached walked id all of whose predecessors in the walk are
    uncached or text-free. -/
theorem collectCacheAux_mem (cache : Nat → Option TMsg) :
    ∀ (ids : List Nat) (m : TMsg), m ∈ collectCacheAux cache ids →
      hasMedia m = true ∧ nonBlankText m.text = false ∧
      ∃ pre i post, ids = pre ++ i :: post ∧ cache i = some m ∧
        (∀ i' ∈ pre, ∀ m', cache i' = some m' → nonBlankText m'.text = false) := by
  intro ids
  induction ids with
  | nil => intro m h; simp [collectCacheAux] at h
  | cons i rest ih =>
    intro m h
    have hstep : ∀ h' : m ∈ collectCacheAux cache rest,
        (∀ m', cache i = some m' → nonBlankText m'.text = false) →
        hasMedia m = true ∧ nonBlankText m.text = false ∧
        ∃ pre j post, i :: rest = pre ++ j :: post ∧ cache j = some m ∧
          (∀ i' ∈ pre, ∀ m', cache i' = some m' → nonBlankText m'.text = false) := by
      intro h' hskip
      obtain ⟨hm, ht, pre, j, post, heq, hcj, hpre⟩ := ih m h'
      refine ⟨hm, ht, i :: pre, j, post, by rw [heq]; rfl, hcj, ?_⟩
      intro i' hi' m' hm'
      rcases List.mem_cons.mp hi' with rfl | hi''
      · exact hskip m' hm'
      · exact hpre i' hi'' m' hm'
    unfold collectCacheAux at h
    split at h
    · next m0 hcache =>
        split at h
        · next htext => simp at h
        · next htext =>
            have hnotext : nonBlankText m0.text = false := by simpa using htext
            split at h
            · next hmedia =>
                rcases List.mem_cons.mp h with rfl | h'
                · exact ⟨hmedia, hnotext, [], i, rest, rfl, hcache, by simp⟩
                · refine hstep h' ?_
                  intro m' hm'
                  rw [hcache] at hm'
                  have hm'' : m' = m0 := by simpa using hm'.symm
                  rw [hm'']
                  exact hnotext
            · next hmedia =>
                refine hstep h ?_
                intro m' hm'
                rw [hcache] at hm'
                have hm'' : m' = m0 := by simpa using hm'.symm
                rw [hm'']
                exact hnotext
    · next hcache =>
        refine hstep h ?_
        intro m' hm'
        rw [hcache] at hm'
        exact absurd hm' (by simp)

/-- On a strictly descending walk the collected messages have strictly
    descending ids (when the cache is keyed consistently). -/
theorem collectCacheAux_pairwise (cache : Nat → Option TMsg)
    (hid : ∀ i m, cache i = some m → m.id = i) :
    ∀ ids : List Nat, List.Pairwise (fun a b => a > b) ids →
      List.Pairwise (fun x y : TMsg => x.id > y.id) (collectCacheAux cache ids) := by
  intro ids
  induction ids with
  | nil => intro _; simp [collectCacheAux]
  | cons i rest ih =>
    intro hp
    rcases List.pairwise_cons.mp hp with ⟨hi, hrest⟩
    unfold collectCacheAux
    split
    · next m0 hcache =>
        split
        · next htext => simp
        · next htext =>
            split
            · next hmedia =>
                refine List.pairwise_cons.mpr ⟨?_, ih hrest⟩
                intro b hb
                obtain ⟨_, _, pre, j, post, heq, hcj, _⟩ :=
                  collectCacheAux_mem cache rest b hb
                have hj : j ∈ rest := by rw [heq]; simp
                rw [hid i m0 hcache, hid j b hcj]
                exact hi j hj
            · next hmedia => exact ih hrest
    · next hcache => exact ih hrest

/-- The walk ids are strictly descending. -/
theorem walkIds_pairwise (message_id max_lookback : Nat) :
    List.Pairwise (fun a b => a > b) (walkIds message_id max_lookback) := by
  simp only [walkIds]
  have h : ∀ n : Nat, n ≤ message_id - 1 - (message_id - max_lookback - 1) →
      List.Pairwise (fun a b => a > b)
        ((List.range n).map (fun k => message_id - 1 - k)) := by
    intro n
    induction n with
    | zero => intro _; simp
    | succ n ih =>
      intro hn
      rw [List.range_succ, List.map_append]
      refine List.pairwise_append.mpr ⟨ih (by omega), by simp, ?_⟩
      intro a ha b hb
      simp only [List.map_cons, List.map_nil, List.mem_singleton] at hb
      rw [List.mem_map] at ha
      obtain ⟨k, hk, rfl⟩ := ha
      rw [List.mem_range] at hk
      subst hb
      omega
  exact h _ le_rfl

end Scraper

namespace Scraper

/-- C4 counterexample: with the channel cached, the collector never fetches
    uncached ids externally; it silently skips id 8 and keeps walking, so it
    returns only the cached media message 9, while the claimed per-id
    cache-then-fetch walk would have fetched 8 and returned messages 8 and
    9 in chronological order. -/
theorem c4_counterexample :
    (collectPreviousMedia true
        (fun i => if i = 9 then some ⟨9, none, true, false, false⟩
          else if i = 7 then some ⟨7, some "t", false, false, false⟩ else none)
        [] 10 3).1 = [⟨9, none, true, false, false⟩]
    ∧ claimedCollect
        (fun i => if i = 9 then some ⟨9, none, true, false, false⟩
          else if i = 7 then some ⟨7, some "t", false, false, false⟩ else none)
        (fun i => if i = 8 then some ⟨8, none, true, false, false⟩ else none)
        10 3 =
        [⟨8, none, true, false, false⟩, ⟨9, none, true, false, false⟩]
    ∧ ([(⟨9, none, true, false, false⟩ : TMsg)] ≠
        [⟨8, none, true, false, false⟩, ⟨9, none, true, false, false⟩]) := by
  refine ⟨by decide, by decide, by decide⟩

/-- C4 amended: when the channel has a cache entry the walk is served from
    the cache alone (ids message_id - 1 down to message_id - max_lookback,
    uncached ids skipped without stopping or fetching, stop at the first
    cached non-blank-text message, only cached media-and-no-text messages
    collected); only a channel with no cache entry at all is served entirely
    by the external descending fetch; either way the collected list is
    reversed into original chronological order. -/
theorem c4_lookback (cache : Nat → Option TMsg) (external : List TMsg)
    (message_id max_lookback : Nat) :
    collectPreviousMedia true cache external message_id max_lookback =
        ((collectFromCache cache message_id max_lookback).reverse, [])
    ∧ (collectPreviousMedia false cache external message_id max_lookback).1 =
        (collectFromTelegram external max_lookback).1.reverse
    ∧ (collectPreviousMedia false cache external message_id max_lookback).2 =
        (collectFromTelegram external max_lookback).2
    ∧ (∀ i, i ∈ walkIds message_id max_lookback ↔
        (message_id - max_lookback - 1 < i ∧ i < message_id))
    ∧ (∀ m ∈ collectFromCache cache message_id max_lookback,
        hasMedia m = true ∧ nonBlankText m.text = false ∧
        ∃ pre i post, walkIds message_id max_lookback = pre ++ i :: post ∧
          cache i = some m ∧
          (∀ i' ∈ pre, ∀ m', cache i' = some m' → nonBlankText m'.text = false))
    ∧ ((∀ i m, cache i = some m → m.id = i) →
        List.Pairwise (fun x y : TMsg => x.id < y.id)
          (collectPreviousMedia true cache external message_id max_lookback).1) := by
  refine ⟨rfl, ?_, ?_, walkIds_mem message_id max_lookback,
    collectCacheAux_mem cache (walkIds message_id max_lookback), ?_⟩
  · rcases hct : collectFromTelegram external max_lookback with ⟨ms, cs⟩
    simp [collectPreviousMedia, hct]
  · rcases hct : collectFromTelegram external max_lookback with ⟨ms, cs⟩
    simp [collectPreviousMedia, hct]
  · intro hid
    show List.Pairwise _ (collectFromCache cache message_id max_lookback).reverse
    rw [List.pairwise_reverse]
    exact collectCacheAux_pairwise cache hid (walkIds message_id max_lookback)
      (walkIds_pairwise message_id max_lookback)

/-- Witness for c4_lookback: the cached media message 9 is collected with a
    media/no-text certificate at its walked id. -/
theorem c4_lookback_witness :
    hasMedia ⟨9, none, true, false, false⟩ = true
    ∧ nonBlankText (⟨9, none, true, false, false⟩ : TMsg).text = false
    ∧ ∃ pre i post, walkIds 10 3 = pre ++ i :: post ∧
        (fun i => if i = 9 then some (⟨9, none, true, false, false⟩ : TMsg)
          else if i = 7 then some ⟨7, some "t", false, false, false⟩ else none) i =
          some ⟨9, none, true, false, false⟩ ∧
        (∀ i' ∈ pre, ∀ m',
          (fun i => if i = 9 then some (⟨9, none, true, false, false⟩ : TMsg)
            else if i = 7 then some ⟨7, some "t", false, false, false⟩ else none) i' =
            some m' → nonBlankText m'.text = false) :=
  (c4_lookback
    (fun i => if i = 9 then some ⟨9, none, true, false, false⟩
      else if i = 7 then some ⟨7, some "t", false, false, false⟩ else none)
    [] 10 3).2.2.2.2.1 ⟨9, none, true, false, false⟩ (by decide)

end Scraper

namespace Scraper

/-! Facts about the rotation state machine on the canonical states reached
    during an all-daily-quota run. -/

/-- The skip loop returns immediately on a non-exhausted index. -/
theorem skipLoop_notin (exh : List Nat) (n fuel i : Nat) (h : i ∉ exh) :
    skipLoop exh n fuel i = i := by
  cases fuel with
  | zero => rfl
  | succ f => unfold skipLoop; rw [if_neg h]

/-- The find-next loop returns immediately when its guard fails. -/
theorem rotFind_exit (exh : List Nat) (n fuel i : Nat)
    (h : ¬(i ∈ exh ∧ exh.length < n)) : rotFind exh n fuel i = i := by
  cases fuel with
  | zero => rfl
  | succ f => unfold rotFind; rw [if_neg h]

/-- Adding the next index to a fully consecutive exhaustion set extends the
    range. -/
theorem insertNat_range (i : Nat) : insertNat i (List.range i) = List.range (i + 1) := by
  unfold insertNat
  rw [if_neg (by simp)]
  exact (List.range_succ _).symm

/-- get_current_model on a canonical state returns the current model and
    leaves the state unchanged. -/
theorem getCurrentModel_canon (keys models : List String) (j i : Nat)
    (hi : i < models.length) :
    getCurrentModel (canonState keys models j i) =
      (models.get? i, canonState keys models j i) := by
  have hne : models.isEmpty = false := by
    cases models
    · simp at hi
    · rfl
  unfold getCurrentModel canonState
  simp only [hne, Bool.not_true, Bool.or_self, if_false, List.length_range]
  rw [if_neg (by simp), if_neg (by omega)]
  rw [skipLoop_notin _ _ _ _ (by simp)]

/-- get_current_api_key on a canonical state returns the current key and
    leaves the state unchanged. -/
theorem getCurrentApiKey_canon (keys models : List String) (j i : Nat)
    (hj : j < keys.length) :
    getCurrentApiKey (canonState keys models j i) =
      (keys.get? j, canonState keys models j i) := by
  have hne : keys.isEmpty = false := by
    cases keys
    · simp at hj
    · rfl
  unfold getCurrentApiKey canonState
  simp only [hne, Bool.not_true, Bool.or_self, if_false, List.length_range]
  rw [if_neg (by simp), if_neg (by omega)]
  rw [skipLoop_notin _ _ _ _ (by simp)]

end Scraper

namespace Scraper

/-- rotate_api_key after all models of key j are exhausted: move to key
    j + 1 with a fresh model state, or disable when j was the last key. -/
theorem rotateApiKey_canon (keys models : List String) (j i' : Nat) (em : List Nat)
    (hj : j < keys.length) :
    rotateApiKey { canonState keys models j i' with exhausted_models := em } =
      (if j + 1 < keys.length then canonState keys models (j + 1) 0
       else deadState keys models) := by
  have hne : keys.isEmpty = false := by
    cases keys
    · simp at hj
    · rfl
  unfold rotateApiKey canonState deadState
  simp only [hne, Bool.not_true, Bool.or_self, if_false]
  rw [insertNat_range]
  by_cases hjk : j + 1 < keys.length
  · rw [if_pos hjk, Nat.mod_eq_of_lt hjk]
    rw [rotFind_exit _ _ _ _ (by simp)]
    rw [if_neg (by simp : ¬(j + 1 ∈ List.range (j + 1)))]
    simp
  · have hjeq : j + 1 = keys.length := by omega
    rw [if_neg hjk]
    rw [show (j + 1) % keys.length = 0 by rw [hjeq]; exact Nat.mod_self _]
    rw [rotFind_exit _ _ _ _ (by simp [hjk])]
    rw [if_pos (by simp : 0 ∈ List.range (j + 1))]
    rw [← hjeq]
    simp

/-- rotate_model on a canonical state: advance to the next model, or (when
    every model of the key is exhausted) rotate or kill the key. -/
theorem rotateModel_canon (keys models : List String) (j i : Nat)
    (hj : j < keys.length) (hi : i < models.length) :
    rotateModel (canonState keys models j i) =
      (if i + 1 < models.length then canonState keys models j (i + 1)
       else if j + 1 < keys.length then canonState keys models (j + 1) 0
       else deadState keys models) := by
  have hne : models.isEmpty = false := by
    cases models
    · simp at hi
    · rfl
  unfold rotateModel
  simp only [canonState, hne, Bool.not_true, Bool.or_self, if_false]
  rw [insertNat_range]
  by_cases him : i + 1 < models.length
  · rw [if_pos him, Nat.mod_eq_of_lt him]
    rw [rotFind_exit _ _ _ _ (by simp)]
    rw [if_neg (by simp : ¬(i + 1 ∈ List.range (i + 1)))]
    rfl
  · have hieq : i + 1 = models.length := by omega
    rw [if_neg him]
    rw [show (i + 1) % models.length = 0 by rw [hieq]; exact Nat.mod_self _]
    rw [rotFind_exit _ _ _ _ (by simp [him])]
    rw [if_pos (by simp : 0 ∈ List.range (i + 1))]
    have h2 := rotateApiKey_canon keys models j i (List.range (i + 1)) hj
    unfold canonState at h2
    exact h2

end Scraper

namespace Scraper

/-- The all-quota retry loop started on a canonical state runs the exact
    remaining budget down, one service call and one rotation per unit, and
    ends in the disabled state with a nil result. -/
theorem extractRunAux_canon (keys models : List String)
    (hks : ∀ k ∈ keys, k ≠ "") (hms : ∀ m ∈ models, m ≠ "") :
    ∀ (fuel j i : Nat), j < keys.length → i < models.length →
      fuel = (keys.length - j) * models.length - i →
      extractRunAux (canonState keys models j i) fuel =
        (deadState keys models, fuel, fuel, none) := by
  intro fuel
  induction fuel using Nat.strong_induction_on with
  | _ fuel IH =>
    intro j i hj hi hf
    have hM1 : models.length ≤ (keys.length - j) * models.length :=
      Nat.le_mul_of_pos_left _ (by omega)
    obtain ⟨f, rfl⟩ : ∃ f, fuel = f + 1 := ⟨fuel - 1, by omega⟩
    have hxm : ∃ x, models.get? i = some x ∧ x ∈ models := by
      rw [List.get?_eq_get hi]
      exact ⟨models.get ⟨i, hi⟩, rfl, List.get_mem _ _ _⟩
    have hxk : ∃ x, keys.get? j = some x ∧ x ∈ keys := by
      rw [List.get?_eq_get hj]
      exact ⟨keys.get ⟨j, hj⟩, rfl, List.get_mem _ _ _⟩
    obtain ⟨xm, hxm1, hxm2⟩ := hxm
    obtain ⟨xk, hxk1, hxk2⟩ := hxk
    have htm : optStrTruthy (models.get? i) = true := by
      rw [hxm1]
      unfold optStrTruthy
      rw [Bool.not_eq_true']
      exact Bool.eq_false_iff.mpr (fun h => hms xm hxm2 ((String.isEmpty_iff xm).mp h))
    have htk : optStrTruthy (keys.get? j) = true := by
      rw [hxk1]
      unfold optStrTruthy
      rw [Bool.not_eq_true']
      exact Bool.eq_false_iff.mpr (fun h => hks xk hxk2 ((String.isEmpty_iff xk).mp h))
    unfold extractRunAux
    rw [getCurrentModel_canon keys models j i hi]
    simp only
    rw [getCurrentApiKey_canon keys models j i hj]
    simp only
    rw [htm, htk]
    simp only [Bool.not_true, Bool.or_self, if_false]
    rw [rotateModel_canon keys models j i hj hi]
    by_cases him : i + 1 < models.length
    · rw [if_pos him]
      have hrec := IH f (by omega) j (i + 1) hj him (by omega)
      rw [show (canonState keys models j (i + 1)).enabled = true from rfl]
      simp only [if_true]
      rw [hrec]
      simp
    · have hieq : i + 1 = models.length := by omega
      rw [if_neg him]
      by_cases hjk : j + 1 < keys.length
      · rw [if_pos hjk]
        have hsplitm : (keys.length - j) * models.length =
            (keys.length - (j + 1)) * models.length + models.length := by
          have h1 : keys.length - j = (keys.length - (j + 1)) + 1 := by omega
          rw [h1, Nat.succ_mul]
        have hrec := IH f (by omega) (j + 1) 0 hjk (by omega) (by omega)
        rw [show (canonState keys models (j + 1) 0).enabled = true from rfl]
        simp only [if_true]
        rw [hrec]
        simp
      · rw [if_neg hjk]
        have hkj : keys.length - j = 1 := by omega
        rw [hkj] at hf
        have hf0 : f = 0 := by omega
        subst hf0
        rw [show (deadState keys models).enabled = false from rfl]
        simp

end Scraper

namespace Scraper

/-- C1: in a run whose every AI call raises a daily-quota error, an enabled
    extractor with K nonempty keys and M nonempty models performs exactly
    K * M rotation steps (and K * M service calls) before disabling itself
    and returning nil; once disabled, every subsequent extract call returns
    nil immediately, with zero service calls and no state change. -/
theorem c1_rotation_termination (keys models : List String)
    (hk : keys ≠ []) (hm : models ≠ [])
    (hks : ∀ k ∈ keys, k ≠ "") (hms : ∀ m ∈ models, m ≠ "") :
    extractAllQuota (initState keys models) =
      (deadState keys models, keys.length * models.length,
       keys.length * models.length, none)
    ∧ (deadState keys models).enabled = false
    ∧ (∀ s : GeminiState, s.enabled = false → extractAllQuota s = (s, 0, 0, none)) := by
  refine ⟨?_, rfl, fun s hs => by unfold extractAllQuota; rw [hs]; rfl⟩
  have hK : 0 < keys.length := List.length_pos.mpr hk
  have hM : 0 < models.length := List.length_pos.mpr hm
  have hinit : initState keys models = canonState keys models 0 0 := by
    unfold initState canonState
    have : keys.isEmpty = false := by
      cases keys
      · exact absurd rfl hk
      · rfl
    rw [this]
    rfl
  rw [hinit]
  unfold extractAllQuota
  rw [show (!(canonState keys models 0 0).enabled) = false from rfl]
  simp only [Bool.false_eq_true, if_false]
  rw [show (canonState keys models 0 0).models.length *
      (canonState keys models 0 0).api_keys.length =
      models.length * keys.length from rfl]
  rw [extractRunAux_canon keys models hks hms (models.length * keys.length) 0 0 hK hM
    (by rw [Nat.mul_comm]; simp)]
  rw [Nat.mul_comm]

/-- Witness for c1_rotation_termination: two keys and three models give six
    rotation steps, six service calls, then the permanently disabled
    state. -/
theorem c1_rotation_termination_witness :
    extractAllQuota (initState ["k1", "k2"] ["m1", "m2", "m3"]) =
      (deadState ["k1", "k2"] ["m1", "m2", "m3"], 2 * 3, 2 * 3, none) :=
  (c1_rotation_termination ["k1", "k2"] ["m1", "m2", "m3"]
    (by decide) (by decide) (by decide) (by decide)).1

end Scraper
